import Mathlib

/-!
Verification of the pr_helper backend polling/reconciliation engine.

This file gives a shallow embedding, in Lean, of the parts of the Python
source that the verified claims are about:

* `backend/app/models/pr_models.py` — the enums and the pull-request record
  (only the fields that the scheduler and the claims inspect are kept; the
  purely presentational payload fields such as title, body, urls, author,
  assignee/reviewer lists and creation timestamps are not looked at by any
  embedded function and are omitted from the record).
* `backend/app/services/github_service.py` — review collapsing
  (`get_pull_request_reviews`), the user-relative flag computation in
  `_convert_pr_data`, and `_determine_pr_status`.
* `backend/app/services/github_graphql_service_v2.py` — `_convert_graphql_pr`
  and the team fetch deduplication of `get_team_pull_requests`.
* `backend/app/services/scheduler.py` — the diff step, the notification
  policy, change handling, the two-phase team-association update, and the
  two polling entry points `poll_repositories` / `poll_repositories_graphql`.

Python dicts are modelled as association lists with in-place replacement on
key collision (`dict_insert`), which reproduces dict update and insertion
order.  Side effects (database writes, websocket broadcasts, error logging)
are modelled as an emitted list of `Event`s; fallible fetches are oracles
returning `Except Unit (List PullRequest)`.
-/

set_option autoImplicit false

namespace PRMonitor

/-- PR lifecycle state; pr_models.PRState (`open` is spelled `open_` because
`open` is a Lean keyword). -/
inductive PRState where
  | open_
  | closed
  | merged
  deriving DecidableEq, Repr

/-- Review outcome; pr_models.ReviewState. -/
inductive ReviewState where
  | pending
  | approved
  | changes_requested
  | dismissed
  deriving DecidableEq, Repr

/-- Derived PR status; pr_models.PRStatus.  Note that the source enum has
exactly these four members: there is no `OPEN` member, although
`github_service._determine_pr_status` tries to return `PRStatus.OPEN`. -/
inductive PRStatus where
  | needs_review
  | reviewed
  | waiting_for_changes
  | ready_to_merge
  deriving DecidableEq, Repr

/-- pr_models.User (id and login; the avatar/profile urls are never
inspected). -/
structure User where
  id : Nat
  login : String
  deriving DecidableEq, Repr

/-- The team shape built by `_convert_pr_data` from `requested_teams` raw
data (id, slug, name; description/privacy never inspected). -/
structure Team where
  id : Nat
  slug : String
  name : String
  deriving DecidableEq, Repr

/-- pr_models.Review. -/
structure Review where
  id : Nat
  user : User
  state : ReviewState
  submitted_at : Option Nat
  deriving DecidableEq, Repr

/-- pr_models.PullRequest restricted to the fields the scheduler and the
claims inspect: `number` and `updated_at` drive the diff, `id` keys the team
associations, `repository_full_name` keys notifications and the GraphQL
dedup, and `state`/`status`/the three user-relative booleans drive status and
notification logic. -/
structure PullRequest where
  id : Nat
  number : Nat
  updated_at : Nat
  state : PRState
  status : PRStatus
  repository_full_name : String
  user_has_reviewed : Bool
  user_is_assigned : Bool
  user_is_requested_reviewer : Bool
  deriving DecidableEq, Repr

/-- pr_models.RepositorySubscription (watch flags only;
`watch_code_owner_prs` and `teams` are never read by the scheduler). -/
structure RepositorySubscription where
  repository_name : String
  watch_all_prs : Bool
  watch_assigned_prs : Bool
  watch_review_requests : Bool
  deriving DecidableEq, Repr

/-- pr_models.TeamSubscription. -/
structure TeamSubscription where
  organization : String
  team_name : String
  watch_all_prs : Bool
  watch_assigned_prs : Bool
  watch_review_requests : Bool
  enabled : Bool
  deriving DecidableEq, Repr

section Dict

variable {α : Type} {β : Type} [DecidableEq α]

/-- Python dict assignment `d[k] = v` on an association list: replace in
place if the key is present (keeping insertion order), else append. -/
def dict_insert (k : α) (v : β) : List (α × β) → List (α × β)
  | [] => [(k, v)]
  | (k2, v2) :: rest =>
    if k2 = k then (k, v) :: rest else (k2, v2) :: dict_insert k v rest

/-- Python dict lookup `d.get(k)`. -/
def dict_lookup (k : α) : List (α × β) → Option β
  | [] => none
  | (k2, v2) :: rest => if k2 = k then some v2 else dict_lookup k rest

end Dict

/-- Snapshot-cache entry: map from PR number to last-seen record
(scheduler's `pr_cache[repo_name]` / `team_pr_cache[team_key]` values). -/
abbrev PRDict : Type := List (Nat × PullRequest)

/-- The dict comprehension `{pr.number: pr for pr in current_prs}`
(scheduler.py lines 147/247/312/373). -/
def snapshot_of (prs : List PullRequest) : PRDict :=
  prs.foldl (fun d pr => dict_insert pr.number pr d) []

/-! ## Diff engine (scheduler.py `_poll_repository` lines 231-245, repeated
verbatim in `_poll_team`, `_collect_team_prs` and
`poll_repositories_graphql`).

The source builds `new_prs` and `updated_prs` in one pass over
`current_prs` (`if pr.number not in previous_prs` / `elif pr.updated_at !=
previous_prs[pr.number].updated_at`) and `closed_prs` from the set
difference `previous_pr_numbers - current_pr_numbers`; the three list
builders below are that loop split per output list (`closed_prs` in the
entry order of the previous snapshot, where the source iterates a Python
set whose order is unspecified). -/

/-- PRs of the current fetch whose number is not a key of the previous
snapshot. -/
def diff_new (current : List PullRequest) (previous : PRDict) :
    List PullRequest :=
  current.filter (fun pr => (dict_lookup pr.number previous).isNone)

/-- PRs of the current fetch present in the previous snapshot with a
different update timestamp. -/
def diff_updated (current : List PullRequest) (previous : PRDict) :
    List PullRequest :=
  current.filter (fun pr =>
    match dict_lookup pr.number previous with
    | none => false
    | some old => pr.updated_at != old.updated_at)

/-- Previous-snapshot records whose number does not occur in the current
fetch. -/
def diff_closed (current : List PullRequest) (previous : PRDict) :
    List PullRequest :=
  (previous.filter
    (fun e => !(current.any (fun pr => pr.number == e.1)))).map (·.2)

/-! ## Notification policy and change handling (scheduler.py
`_should_notify_for_pr`, `_should_notify_for_team_pr`, `_handle_pr_changes`,
`_handle_team_pr_changes`).

`_send_pr_notification` only updates an internal rate-limit map and emits a
debug log (Slack delivery is disabled in the source); it performs no
broadcast and is not modelled. -/

/-- Tag attached to a live-update broadcast (the string literals
`"new_pr"` / `"updated"` / `"closed"` of the source). -/
inductive ChangeKind where
  | new_pr
  | updated
  | closed
  deriving DecidableEq, Repr

/-- Observable side effects of a poll cycle: database writes, websocket
broadcasts and logged-and-swallowed fetch errors. -/
inductive Event where
  /-- A fetch failure logged and swallowed (`logger.error` in the source). -/
  | fetch_error (key : String)
  /-- `DatabaseService.upsert_pull_requests(pr_dicts, scope)`; the team
  paths of the REST cycle call it without a repository scope. -/
  | upsert_prs (scope : Option String) (prs : List PullRequest)
  /-- `DatabaseService.upsert_pull_requests_graphql(pr_dicts, team_key)`. -/
  | upsert_prs_graphql (team_key : String) (prs : List PullRequest)
  /-- `websocket_manager.send_pr_update(repo, pr, kind)`. -/
  | pr_update (repo : String) (pr : PullRequest) (kind : ChangeKind)
  /-- `websocket_manager.send_team_pr_update(team_key, pr, kind)`. -/
  | team_pr_update (team_key : String) (pr : PullRequest) (kind : ChangeKind)
  /-- `websocket_manager.send_repository_stats_update(repo, stats)`. -/
  | repository_stats (repo : String)
      (total assigned review_requests needs_review : Nat)
  /-- `DatabaseService.update_repository_stats(repo, ...)`. -/
  | repository_stats_db (repo : String)
      (total assigned review_requests : Nat)
  /-- `_send_team_stats_update`: the team-stats database write and
  websocket broadcast (both carry the same three counters). -/
  | team_stats (team_key : String) (total assigned review_requests : Nat)
  /-- `DatabaseService.update_pr_team_associations(pr_id, team_keys)`. -/
  | update_pr_team_associations (pr_id : Nat) (team_keys : List String)
  /-- An `AttributeError` escaping a polling entry point uncaught (the
  GraphQL path's repository loop reads `subscription.enabled` on
  `RepositorySubscription`, which has no such field, outside its per-repo
  try/except). -/
  | attribute_error
  deriving DecidableEq, Repr

/-- scheduler.py `_should_notify_for_pr` (lines 525-535). -/
def should_notify_for_pr (pr : PullRequest)
    (subscription : RepositorySubscription) : Bool :=
  if subscription.watch_all_prs then true
  else if subscription.watch_assigned_prs && pr.user_is_assigned then true
  else if subscription.watch_review_requests &&
      pr.user_is_requested_reviewer then true
  else false

/-- scheduler.py `_should_notify_for_team_pr` (lines 461-471). -/
def should_notify_for_team_pr (pr : PullRequest)
    (subscription : TeamSubscription) : Bool :=
  if subscription.watch_all_prs then true
  else if subscription.watch_assigned_prs && pr.user_is_assigned then true
  else if subscription.watch_review_requests &&
      pr.user_is_requested_reviewer then true
  else false

/-- scheduler.py `_handle_pr_changes` (lines 498-523): policy-filtered
broadcasts for new and updated records, unconditional broadcasts for closed
records. -/
def handle_pr_changes (repo_name : String)
    (subscription : RepositorySubscription)
    (new_prs updated_prs closed_prs : List PullRequest) : List Event :=
  (new_prs.filter (fun pr => should_notify_for_pr pr subscription)).map
      (fun pr => Event.pr_update repo_name pr ChangeKind.new_pr)
    ++ (updated_prs.filter
        (fun pr => should_notify_for_pr pr subscription)).map
      (fun pr => Event.pr_update repo_name pr ChangeKind.updated)
    ++ closed_prs.map
      (fun pr => Event.pr_update repo_name pr ChangeKind.closed)

/-- scheduler.py `_handle_team_pr_changes` (lines 434-459). -/
def handle_team_pr_changes (team_key : String)
    (subscription : TeamSubscription)
    (new_prs updated_prs closed_prs : List PullRequest) : List Event :=
  (new_prs.filter (fun pr => should_notify_for_team_pr pr subscription)).map
      (fun pr => Event.team_pr_update team_key pr ChangeKind.new_pr)
    ++ (updated_prs.filter
        (fun pr => should_notify_for_team_pr pr subscription)).map
      (fun pr => Event.team_pr_update team_key pr ChangeKind.updated)
    ++ closed_prs.map
      (fun pr => Event.team_pr_update team_key pr ChangeKind.closed)

/-! ## Status derivation (github_service.py `_determine_pr_status`,
lines 321-342).

The source returns `PRStatus.OPEN` on its first and last branches, but the
`PRStatus` enum of pr_models.py has no `OPEN` member, so those branches
raise `AttributeError` at run time (the exception is then swallowed by the
catch-all of `_convert_pr_data`, which drops the record).  The embedding
returns `none` for those two branches. -/

/-- github_service.py `_determine_pr_status`; `none` models the
`AttributeError` raised by the nonexistent `PRStatus.OPEN`. -/
def determine_pr_status (pr_state : PRState) (reviews : List Review)
    (user_has_reviewed user_is_assigned user_is_requested_reviewer : Bool) :
    Option PRStatus :=
  if pr_state = PRState.closed ∨ pr_state = PRState.merged then
    none
  else if user_has_reviewed then
    some PRStatus.reviewed
  else if user_is_requested_reviewer || user_is_assigned then
    some PRStatus.needs_review
  else
    none

/-! ## User-relative reviewer flag (github_service.py `_convert_pr_data`,
lines 250-264). -/

/-- The `user_is_requested_reviewer` computation of `_convert_pr_data`:
membership in the individually requested reviewers, then the team-level
override `if not user_is_requested_reviewer and requested_teams and not
user_has_reviewed: user_is_requested_reviewer = True`.  Note the override
only tests that `requested_teams` is non-empty. -/
def user_is_requested_reviewer_code (current_user_login : String)
    (requested_reviewers : List User) (requested_teams : List Team)
    (user_has_reviewed : Bool) : Bool :=
  let individually :=
    requested_reviewers.any (fun r => r.login == current_user_login)
  if !individually && !requested_teams.isEmpty && !user_has_reviewed then
    true
  else
    individually

/-- The predicate the spec describes for `user_is_requested_reviewer`
(spec.md section 4.1 step 3), stated from the spec's words for comparison
with `user_is_requested_reviewer_code`: viewer among the individually
requested reviewers, or the viewer's team among the requested teams and the
viewer has not already reviewed.  `viewer_team_slugs` lists the teams the
viewer belongs to. -/
def user_is_requested_reviewer_spec (current_user_login : String)
    (requested_reviewers : List User) (requested_teams : List Team)
    (viewer_team_slugs : List String) (user_has_reviewed : Bool) : Bool :=
  requested_reviewers.any (fun r => r.login == current_user_login)
    || (requested_teams.any (fun t => viewer_team_slugs.contains t.slug)
        && !user_has_reviewed)

/-! ## Review collapsing (github_service.py `get_pull_request_reviews`,
lines 108-156). -/

/-- Raw review state strings delivered by the REST API, as an enumeration
(`APPROVED`, `CHANGES_REQUESTED`, `COMMENTED`, `DISMISSED`, `PENDING`). -/
inductive RawReviewState where
  | approved
  | changes_requested
  | commented
  | dismissed
  | pending
  deriving DecidableEq, Repr

/-- One element of the raw reviews payload. -/
structure RawReview where
  id : Nat
  user : User
  state : RawReviewState
  submitted_at : Option Nat
  deriving DecidableEq, Repr

/-- github_service.py `_convert_review_state`: the `mapping.get(state,
PENDING)` table. -/
def convert_review_state : RawReviewState → ReviewState
  | RawReviewState.approved => ReviewState.approved
  | RawReviewState.changes_requested => ReviewState.changes_requested
  | RawReviewState.commented => ReviewState.pending
  | RawReviewState.dismissed => ReviewState.dismissed
  | RawReviewState.pending => ReviewState.pending

/-- First step of `get_pull_request_reviews`: keep raw entries whose state
is `APPROVED`, `CHANGES_REQUESTED` or `COMMENTED` and convert them. -/
def rest_all_reviews (raws : List RawReview) : List Review :=
  (raws.filter (fun r =>
      r.state == RawReviewState.approved
        || r.state == RawReviewState.changes_requested
        || r.state == RawReviewState.commented)).map
    (fun r =>
      { id := r.id, user := r.user, state := convert_review_state r.state,
        submitted_at := r.submitted_at })

/-- Second step: the `latest_reviews_by_user` dict, keyed by reviewer
login; a later entry replaces the stored one only when both carry a
submission time and the new one is strictly later. -/
def latest_reviews_by_user (reviews : List Review) :
    List (String × Review) :=
  reviews.foldl
    (fun d review =>
      match dict_lookup review.user.login d with
      | none => dict_insert review.user.login review d
      | some existing =>
        match review.submitted_at, existing.submitted_at with
        | some t, some t2 =>
          if t2 < t then dict_insert review.user.login review d else d
        | _, _ => d)
    []

/-- github_service.py `get_pull_request_reviews` applied to an
already-decoded raw payload: convert, collapse per reviewer, then keep only
`approved` / `changes_requested` survivors. -/
def get_pull_request_reviews (raws : List RawReview) : List Review :=
  ((latest_reviews_by_user (rest_all_reviews raws)).map (·.2)).filter
    (fun r =>
      r.state == ReviewState.approved
        || r.state == ReviewState.changes_requested)

/-! ## GraphQL conversion (github_graphql_service_v2.py `_convert_graphql_pr`
lines 359-507, `_determine_pr_state` lines 344-357, and the dedup step of
`get_team_pull_requests` lines 188-195). -/

/-- One node of the GraphQL `reviews` connection: the author login (absent
for deleted users, in which case the source skips the node), the raw state
string and the submission time (always present in GraphQL data). -/
structure GraphRawReview where
  author : Option String
  state : String
  submitted_at : Nat
  deriving DecidableEq, Repr

/-- One PullRequest node of the GraphQL search payload, restricted to the
fields `_convert_graphql_pr` reads into the embedded record (title, body,
urls, assignee/reviewer/label connections only populate omitted
presentational fields). -/
structure RawGraphQLPR where
  number : Nat
  state : String
  updated_at : Nat
  repo_owner : String
  repo_name : String
  reviews : List GraphRawReview
  deriving DecidableEq, Repr

/-- github_graphql_service_v2.py `_determine_pr_state`. -/
def determine_pr_state (github_state : String) : PRState :=
  if github_state == "MERGED" then PRState.merged
  else if github_state == "CLOSED" then PRState.closed
  else PRState.open_

/-- The `state_mapping.get(github_state, "pending")` table of
`_convert_graphql_pr`. -/
def convert_graphql_review_state (github_state : String) : ReviewState :=
  if github_state == "APPROVED" then ReviewState.approved
  else if github_state == "CHANGES_REQUESTED" then
    ReviewState.changes_requested
  else if github_state == "DISMISSED" then ReviewState.dismissed
  else ReviewState.pending

/-- The review extraction of `_convert_graphql_pr`: skip author-less nodes,
skip `COMMENTED` nodes, convert the rest (user ids are placeholder zeros in
the source). -/
def graphql_all_reviews (nodes : List GraphRawReview) : List Review :=
  nodes.foldr
    (fun node acc =>
      match node.author with
      | none => acc
      | some login =>
        if node.state == "COMMENTED" then acc
        else
          { id := 0, user := { id := 0, login := login },
            state := convert_graphql_review_state node.state,
            submitted_at := some node.submitted_at } :: acc)
    []

/-- The `latest_reviews_by_user` dict of `_convert_graphql_pr` (line 457):
unlike the REST variant it compares submission times unguardedly, and no
decisive-only filter follows — all survivors are kept. -/
def graphql_latest_reviews (reviews : List Review) : List Review :=
  (reviews.foldl
    (fun d review =>
      match dict_lookup review.user.login d with
      | none => dict_insert review.user.login review d
      | some existing =>
        if existing.submitted_at.getD 0 < review.submitted_at.getD 0 then
          dict_insert review.user.login review d
        else d)
    []).map (·.2)

/-- The status derivation of `_convert_graphql_pr` (lines 472-485):
changes-requested wins over approval, otherwise `needs_review`. -/
def graphql_status (reviews : List Review) : PRStatus :=
  if reviews.any (fun r => r.state == ReviewState.changes_requested) then
    PRStatus.waiting_for_changes
  else if reviews.any (fun r => r.state == ReviewState.approved) then
    PRStatus.reviewed
  else
    PRStatus.needs_review

/-- github_graphql_service_v2.py `_convert_graphql_pr`: the constructed
record always carries `user_is_assigned = user_is_requested_reviewer =
user_has_reviewed = False` (source lines 504-506, annotated "Will be set by
the scheduler") and a placeholder id of 0. -/
def convert_graphql_pr (raw : RawGraphQLPR) : PullRequest :=
  let reviews := graphql_latest_reviews (graphql_all_reviews raw.reviews)
  { id := 0,
    number := raw.number,
    updated_at := raw.updated_at,
    state := determine_pr_state raw.state,
    status := graphql_status reviews,
    repository_full_name := raw.repo_owner ++ "/" ++ raw.repo_name,
    user_has_reviewed := false,
    user_is_assigned := false,
    user_is_requested_reviewer := false }

/-- The dedup step of `get_team_pull_requests` (V2): a dict keyed by
`f"{repo}#{number}"`, last writer wins, then `list(values())`. -/
def get_team_pull_requests_v2 (raws : List RawGraphQLPR) :
    List PullRequest :=
  ((raws.map convert_graphql_pr).foldl
    (fun d pr =>
      dict_insert (pr.repository_full_name ++ "#" ++ toString pr.number)
        pr d)
    []).map (·.2)

/-! ## Scheduler cycle (scheduler.py `PRMonitorScheduler`).

The mutable fields the polling entry points touch are collected in
`SchedulerState`; the registries and caches are dicts (association lists).
`token_set`/`token_valid` model `token_service._token is not None` and
`token_service._token_valid`; `TokenService.is_token_valid` is their
conjunction.  Fetches are oracles returning `Except Unit (List
PullRequest)`: `Except.error ()` stands for any exception raised while
fetching and normalizing. -/

/-- Fetch oracle: per subscription key, either the normalized fetch result
or a raised exception. -/
abbrev Fetcher : Type := String → Except Unit (List PullRequest)

/-- The scheduler fields read and written by the polling entry points. -/
structure SchedulerState where
  token_set : Bool
  token_valid : Bool
  subscribed_repositories : List (String × RepositorySubscription)
  subscribed_teams : List (String × TeamSubscription)
  pr_cache : List (String × PRDict)
  team_pr_cache : List (String × PRDict)
  deriving DecidableEq, Repr

/-- token_service.py `TokenService.is_token_valid`. -/
def SchedulerState.is_token_valid (s : SchedulerState) : Bool :=
  s.token_valid && s.token_set

/-- github_service.py `GitHubService.get_pull_requests`: the `client`
property raises `ValueError` when no valid token is available, and the
method's catch-all turns every exception — including a failed fetch — into
a logged error and an empty result list. -/
def get_pull_requests_rest (token_valid : Bool) (fetch : Fetcher)
    (repo_name : String) : List PullRequest × List Event :=
  if !token_valid then ([], [Event.fetch_error repo_name])
  else
    match fetch repo_name with
    | Except.ok prs => (prs, [])
    | Except.error _ => ([], [Event.fetch_error repo_name])

/-- github_service.py `GitHubService.get_team_pull_requests`: same
swallow-to-empty error behavior as `get_pull_requests` (a token failure
surfaces inside `get_team_members`, which already returns `[]`). -/
def get_team_pull_requests_rest (token_valid : Bool) (fetch : Fetcher)
    (team_key : String) : List PullRequest × List Event :=
  if !token_valid then ([], [Event.fetch_error team_key])
  else
    match fetch team_key with
    | Except.ok prs => (prs, [])
    | Except.error _ => ([], [Event.fetch_error team_key])

/-- Counters of `_send_repository_stats_update` /
`update_repository_stats` / `_send_team_stats_update`. -/
def count_assigned (prs : List PullRequest) : Nat :=
  (prs.filter (fun pr => pr.user_is_assigned)).length

def count_review_requests (prs : List PullRequest) : Nat :=
  (prs.filter (fun pr => pr.user_is_requested_reviewer)).length

def count_needs_review (prs : List PullRequest) : Nat :=
  (prs.filter (fun pr => pr.status == PRStatus.needs_review)).length

/-- scheduler.py `_poll_repository` (lines 221-283): fetch, diff against
the cached snapshot, replace the cache entry wholesale, persist, broadcast
changes, then push and persist repository stats.  Returns the new cache
entry for the repository and the emitted events. -/
def poll_repository (token_valid : Bool) (fetch : Fetcher)
    (repo_name : String) (subscription : RepositorySubscription)
    (cache_entry : PRDict) : PRDict × List Event :=
  let fetched := get_pull_requests_rest token_valid fetch repo_name
  let current_prs := fetched.1
  let previous_prs := cache_entry
  let events :=
    fetched.2
      ++ [Event.upsert_prs (some repo_name) current_prs]
      ++ handle_pr_changes repo_name subscription
          (diff_new current_prs previous_prs)
          (diff_updated current_prs previous_prs)
          (diff_closed current_prs previous_prs)
      ++ [Event.repository_stats repo_name current_prs.length
            (count_assigned current_prs) (count_review_requests current_prs)
            (count_needs_review current_prs)]
      ++ [Event.repository_stats_db repo_name current_prs.length
            (count_assigned current_prs)
            (count_review_requests current_prs)]
  (snapshot_of current_prs, events)

/-- scheduler.py `_collect_team_prs` (lines 344-398): phase-1 team
processing — fetch, diff, replace the team cache entry, persist records
(without associations), broadcast changes and stats.  Returns the new
cache entry, the events, and the `current_prs` handed to phase 2. -/
def collect_team_prs (token_valid : Bool) (fetch : Fetcher)
    (team_key : String) (subscription : TeamSubscription)
    (cache_entry : PRDict) : PRDict × List Event × List PullRequest :=
  let fetched := get_team_pull_requests_rest token_valid fetch team_key
  let current_prs := fetched.1
  let previous_prs := cache_entry
  let events :=
    fetched.2
      ++ [Event.upsert_prs none current_prs]
      ++ handle_team_pr_changes team_key subscription
          (diff_new current_prs previous_prs)
          (diff_updated current_prs previous_prs)
          (diff_closed current_prs previous_prs)
      ++ [Event.team_stats team_key current_prs.length
            (count_assigned current_prs)
            (count_review_requests current_prs)]
  (snapshot_of current_prs, events, current_prs)

/-- The inner `pr_team_associations[pr_id].add(team_key)` of
`_update_all_team_associations`, including the create-if-absent step. -/
def assoc_add (pr_id : Nat) (team_key : String)
    (d : List (Nat × List String)) : List (Nat × List String) :=
  match dict_lookup pr_id d with
  | none => dict_insert pr_id [team_key] d
  | some keys =>
    dict_insert pr_id
      (if keys.contains team_key then keys else keys ++ [team_key]) d

/-- The `pr_team_associations` dict of `_update_all_team_associations`
(lines 406-420): per PR id, the set of team keys whose phase-1 result list
contained that PR. -/
def build_pr_team_associations
    (all_team_prs : List (String × List PullRequest)) :
    List (Nat × List String) :=
  all_team_prs.foldl
    (fun d team_data =>
      team_data.2.foldl (fun d2 pr => assoc_add pr.id team_data.1 d2) d)
    []

/-- scheduler.py `_update_all_team_associations` (lines 400-432): one
`update_pr_team_associations` write per PR id, from the dict above. -/
def update_all_team_associations_events
    (all_team_prs : List (String × List PullRequest)) : List Event :=
  (build_pr_team_associations all_team_prs).map
    (fun e => Event.update_pr_team_associations e.1 e.2)

/-- Specification helper for the association dict: PR id `i` is mapped to
a key set containing `k`. -/
def assoc_has_key (d : List (Nat × List String)) (i : Nat) (k : String) :
    Prop :=
  ∃ ks, dict_lookup i d = some ks ∧ k ∈ ks

/-- The repository loop of `poll_repositories` (lines 200-204) /
`poll_repositories_graphql` (lines 171-177), threading the `pr_cache`
dict.  The per-iteration try/except of the source catches nothing here
because every collaborator call is modelled as an event. -/
def repo_phase (token_valid : Bool) (fetch : Fetcher)
    (cache : List (String × PRDict)) :
    List (String × RepositorySubscription) →
      List (String × PRDict) × List Event
  | [] => (cache, [])
  | (repo_name, subscription) :: rest =>
    let polled :=
      poll_repository token_valid fetch repo_name subscription
        ((dict_lookup repo_name cache).getD [])
    let tail :=
      repo_phase token_valid fetch (dict_insert repo_name polled.1 cache)
        rest
    (tail.1, polled.2 ++ tail.2)

/-- The phase-1 team loop of `poll_repositories` (lines 206-216): each
enabled team is collected, and its `(team_key, current_prs)` pair is added
to `all_team_prs` (the success path of `_collect_team_prs` always returns
a non-empty dict, so the `if team_prs:` guard always passes here). -/
def team_phase (token_valid : Bool) (fetch : Fetcher)
    (cache : List (String × PRDict)) :
    List (String × TeamSubscription) →
      List (String × PRDict) × List Event ×
        List (String × List PullRequest)
  | [] => (cache, [], [])
  | (team_key, subscription) :: rest =>
    if !subscription.enabled then team_phase token_valid fetch cache rest
    else
      let collected :=
        collect_team_prs token_valid fetch team_key subscription
          ((dict_lookup team_key cache).getD [])
      let tail :=
        team_phase token_valid fetch
          (dict_insert team_key collected.1 cache) rest
      (tail.1, collected.2.1 ++ tail.2.1,
        (team_key, collected.2.2) :: tail.2.2)

/-- scheduler.py `poll_repositories` (lines 182-219): token precondition,
empty-registry short-circuit, repository loop, phase-1 team loop, then the
phase-2 association batch. -/
def poll_repositories (fetch_repo fetch_team : Fetcher)
    (s : SchedulerState) : SchedulerState × List Event :=
  if !s.is_token_valid then (s, [])
  else if s.subscribed_repositories.isEmpty &&
      s.subscribed_teams.isEmpty then (s, [])
  else
    let repos :=
      repo_phase s.is_token_valid fetch_repo s.pr_cache
        s.subscribed_repositories
    let teams :=
      team_phase s.is_token_valid fetch_team s.team_pr_cache
        s.subscribed_teams
    ({ s with pr_cache := repos.1, team_pr_cache := teams.1 },
      repos.2 ++ teams.2.1
        ++ update_all_team_associations_events teams.2.2)

/-- The team loop of `poll_repositories_graphql` (lines 118-167): the V2
GraphQL service raises `ValueError` when no token is set at all, and
propagates fetch errors, both caught by the per-team `except` (logged,
team skipped); on success the team is diffed, cached, persisted via the
GraphQL-specific upsert, and broadcast. -/
def graphql_team_phase (token_set : Bool) (fetch : Fetcher)
    (cache : List (String × PRDict)) :
    List (String × TeamSubscription) →
      List (String × PRDict) × List Event
  | [] => (cache, [])
  | (team_key, subscription) :: rest =>
    if !subscription.enabled then
      graphql_team_phase token_set fetch cache rest
    else
      match (if !token_set then Except.error () else fetch team_key) with
      | Except.error _ =>
        let tail := graphql_team_phase token_set fetch cache rest
        (tail.1, Event.fetch_error team_key :: tail.2)
      | Except.ok current_prs =>
        let previous_prs := (dict_lookup team_key cache).getD []
        let events :=
          [Event.upsert_prs_graphql team_key current_prs]
            ++ handle_team_pr_changes team_key subscription
                (diff_new current_prs previous_prs)
                (diff_updated current_prs previous_prs)
                (diff_closed current_prs previous_prs)
            ++ [Event.team_stats team_key current_prs.length
                  (count_assigned current_prs)
                  (count_review_requests current_prs)]
        let tail :=
          graphql_team_phase token_set fetch
            (dict_insert team_key (snapshot_of current_prs) cache) rest
        (tail.1, events ++ tail.2)

/-- scheduler.py `poll_repositories_graphql` (lines 108-180): no token
precondition — the method goes straight to the per-team GraphQL fetches.
Its repository loop (lines 171-177) then reads `subscription.enabled`
(line 172) outside the per-repo try/except, but `RepositorySubscription`
has no `enabled` field, so the first repository subscription raises
`AttributeError`, which escapes the method (the surrounding try has only
a `finally`): no repository is ever fetched or polled on this path, and
the already-performed team side effects stand.  The escaped exception is
modelled by a final `Event.attribute_error`. -/
def poll_repositories_graphql (fetch_team_graphql : Fetcher)
    (s : SchedulerState) : SchedulerState × List Event :=
  if s.subscribed_repositories.isEmpty && s.subscribed_teams.isEmpty then
    (s, [])
  else
    ({ s with team_pr_cache :=
        (graphql_team_phase s.token_set fetch_team_graphql
          s.team_pr_cache s.subscribed_teams).1 },
      (graphql_team_phase s.token_set fetch_team_graphql
          s.team_pr_cache s.subscribed_teams).2
        ++ (if s.subscribed_repositories.isEmpty then []
            else [Event.attribute_error]))

/-! ## Concrete fixtures used by the claim witnesses and counterexamples. -/

/-- A repository scope key. -/
def widgets_repo : String := "acme/widgets"

/-- A second repository scope key. -/
def gadgets_repo : String := "acme/gadgets"

/-- A team scope key. -/
def platform_team_key : String := "acme/platform"

/-- A second team scope key. -/
def mobile_team_key : String := "acme/mobile"

/-- A viewer login. -/
def alice_login : String := "alice"

/-- A reviewer. -/
def bob_user : User := { id := 3, login := "bob" }

/-- A requested team the viewer does not belong to. -/
def platform_team : Team := { id := 1, slug := "platform", name := "Platform" }

/-- A pull-request record template. -/
def sample_pr : PullRequest :=
  { id := 100, number := 10, updated_at := 50, state := PRState.open_,
    status := PRStatus.needs_review, repository_full_name := "acme/widgets",
    user_has_reviewed := false, user_is_assigned := false,
    user_is_requested_reviewer := true }

/-- A second record, same repository, different number. -/
def sample_pr2 : PullRequest :=
  { sample_pr with
    id := 101
    number := 11
    updated_at := 60
    user_is_requested_reviewer := false
    user_is_assigned := true }

/-- A record sharing `sample_pr`'s number but from another repository, as a
team fetch can surface (the team snapshot is keyed by number alone). -/
def clashing_pr : PullRequest :=
  { sample_pr with
    id := 102
    updated_at := 70
    repository_full_name := "acme/gadgets" }

/-- A watch-everything repository subscription. -/
def widgets_subscription : RepositorySubscription :=
  { repository_name := "acme/widgets", watch_all_prs := true,
    watch_assigned_prs := true, watch_review_requests := true }

/-- A watch-everything team subscription. -/
def platform_subscription : TeamSubscription :=
  { organization := "acme", team_name := "platform", watch_all_prs := true,
    watch_assigned_prs := true, watch_review_requests := true,
    enabled := true }

/-- The raw review list of the C9 counterexample: an approval followed by a
later plain comment from the same reviewer. -/
def c9_raws : List RawReview :=
  [{ id := 1, user := bob_user, state := RawReviewState.approved,
     submitted_at := some 1 },
   { id := 2, user := bob_user, state := RawReviewState.commented,
     submitted_at := some 2 }]

/-- A raw review list whose latest entry per reviewer is decisive: a
comment followed by a later approval from the same reviewer. -/
def c9_good_raws : List RawReview :=
  [{ id := 1, user := bob_user, state := RawReviewState.commented,
     submitted_at := some 1 },
   { id := 2, user := bob_user, state := RawReviewState.approved,
     submitted_at := some 2 }]

/-- C3 counterexample fetch result: two same-numbered records from two
repositories in one team fetch. -/
def c3_prs : List PullRequest := [sample_pr, clashing_pr]

/-- An oracle that always returns `c3_prs`. -/
def c3_fetch : Fetcher := fun _ => Except.ok c3_prs

/-- C6 state: no token at all, one repository subscription with a
previously cached open PR, and one enabled team subscription. -/
def c6_state : SchedulerState :=
  { token_set := false, token_valid := false,
    subscribed_repositories := [("acme/widgets", widgets_subscription)],
    subscribed_teams := [("acme/platform", platform_subscription)],
    pr_cache := [("acme/widgets", [(10, sample_pr)])],
    team_pr_cache := [] }

/-- An oracle whose every fetch raises. -/
def failing_fetch : Fetcher := fun _ => Except.error ()

/-- An oracle returning two records with distinct numbers. -/
def two_pr_fetch : Fetcher := fun _ => Except.ok [sample_pr, sample_pr2]

/-- A second repository subscription. -/
def gadgets_subscription : RepositorySubscription :=
  { repository_name := "acme/gadgets", watch_all_prs := true,
    watch_assigned_prs := true, watch_review_requests := true }

/-- A second watch-everything team subscription. -/
def mobile_subscription : TeamSubscription :=
  { organization := "acme", team_name := "mobile", watch_all_prs := true,
    watch_assigned_prs := true, watch_review_requests := true,
    enabled := true }

/-- C7 oracle: both teams surface `sample_pr` (id 100) in the same cycle;
the mobile team additionally surfaces `sample_pr2`. -/
def c7_fetch : Fetcher := fun key =>
  if key == "acme/platform" then Except.ok [sample_pr]
  else Except.ok [sample_pr, sample_pr2]

/-- C7 state: a valid token and two team subscriptions. -/
def c7_state : SchedulerState :=
  { token_set := true, token_valid := true,
    subscribed_repositories := [],
    subscribed_teams :=
      [("acme/platform", platform_subscription),
       ("acme/mobile", mobile_subscription)],
    pr_cache := [],
    team_pr_cache := [] }

/-- A raw GraphQL PR node used by the C10 witness. -/
def c10_raw : RawGraphQLPR :=
  { number := 7
    state := "OPEN"
    updated_at := 5
    repo_owner := "acme"
    repo_name := "widgets"
    reviews := [{ author := some "bob", state := "APPROVED", submitted_at := 1 }] }

/-- C10 oracle: every team fetch returns the converted form of
`c10_raw`, the shape the V2 GraphQL service produces. -/
def c10_fetch : Fetcher :=
  fun _ => Except.ok ([c10_raw].map convert_graphql_pr)

/-- C8 oracle: the widgets fetch succeeds, every other fetch raises. -/
def c8_fetch : Fetcher := fun key =>
  if key == "acme/widgets" then Except.ok [sample_pr] else Except.error ()

/-- C8 team oracle: the platform fetch succeeds, every other fetch
raises. -/
def c8_team_fetch : Fetcher := fun key =>
  if key == "acme/platform" then Except.ok [sample_pr2]
  else Except.error ()

/-- C8 state: a valid token, two repository subscriptions (the first of
which will fail to fetch) and two enabled team subscriptions (the first
of which will fail to fetch). -/
def c8_state : SchedulerState :=
  { token_set := true, token_valid := true,
    subscribed_repositories :=
      [("acme/gadgets", gadgets_subscription),
       ("acme/widgets", widgets_subscription)],
    subscribed_teams :=
      [("acme/mobile", mobile_subscription),
       ("acme/platform", platform_subscription)],
    pr_cache := [],
    team_pr_cache := [] }

/-- C1 witness snapshot: `sample_pr2` with an older timestamp under its
number, plus a record that will vanish from the current fetch. -/
def c1_previous : PRDict :=
  [(11, { sample_pr2 with updated_at := 40 }),
   (12, { sample_pr with id := 103, number := 12 })]

/-! ## Association-list lemmas. -/

section DictLemmas

variable {α : Type} {β : Type} [DecidableEq α]

theorem dict_lookup_insert_self (k : α) (v : β) (d : List (α × β)) :
    dict_lookup k (dict_insert k v d) = some v := by
  induction d with
  | nil => simp [dict_insert, dict_lookup]
  | cons e rest ih =>
    by_cases h : e.1 = k
    · simp [dict_insert, dict_lookup, h]
    · simp only [dict_insert, dict_lookup, h, if_false]
      exact ih

theorem dict_lookup_insert_ne (k k2 : α) (v : β) (d : List (α × β))
    (h : k2 ≠ k) : dict_lookup k (dict_insert k2 v d) = dict_lookup k d := by
  induction d with
  | nil => simp [dict_insert, dict_lookup, h]
  | cons e rest ih =>
    by_cases h2 : e.1 = k2
    · simp [dict_insert, dict_lookup, h2, h]
    · simp only [dict_insert, dict_lookup, h2, if_false]
      by_cases h3 : e.1 = k <;> simp [h3, ih]

theorem mem_dict_insert {k : α} {v : β} {d : List (α × β)} {e : α × β}
    (h : e ∈ dict_insert k v d) : e = (k, v) ∨ e ∈ d := by
  induction d with
  | nil => simpa [dict_insert] using h
  | cons e2 rest ih =>
    by_cases h2 : e2.1 = k
    · simp only [dict_insert, h2, if_true, List.mem_cons] at h
      rcases h with h | h
      · exact Or.inl h
      · exact Or.inr (List.mem_cons_of_mem _ h)
    · simp only [dict_insert, h2, if_false, List.mem_cons] at h
      rcases h with h | h
      · exact Or.inr (by simp [h])
      · rcases ih h with h3 | h3
        · exact Or.inl h3
        · exact Or.inr (List.mem_cons_of_mem _ h3)

theorem dict_lookup_mem {k : α} {v : β} {d : List (α × β)}
    (h : dict_lookup k d = some v) : (k, v) ∈ d := by
  induction d with
  | nil => simp [dict_lookup] at h
  | cons e rest ih =>
    obtain ⟨k2, v2⟩ := e
    by_cases h2 : k2 = k
    · simp only [dict_lookup, h2, if_true, Option.some.injEq] at h
      subst h2
      subst h
      exact List.mem_cons_self _ _
    · simp only [dict_lookup, h2, if_false] at h
      exact List.mem_cons_of_mem _ (ih h)

theorem dict_lookup_eq_none {k : α} {d : List (α × β)} :
    dict_lookup k d = none ↔ ∀ e ∈ d, e.1 ≠ k := by
  induction d with
  | nil => simp [dict_lookup]
  | cons e rest ih =>
    by_cases h2 : e.1 = k
    · simp [dict_lookup, h2]
    · simp [dict_lookup, h2, ih]

theorem dict_keys_nodup_insert {k : α} {v : β} {d : List (α × β)}
    (h : (d.map Prod.fst).Nodup) :
    ((dict_insert k v d).map Prod.fst).Nodup := by
  induction d with
  | nil => simp [dict_insert]
  | cons e rest ih =>
    by_cases h2 : e.1 = k
    · simpa [dict_insert, h2] using h
    · simp only [List.map_cons, List.nodup_cons] at h
      have h3 := ih h.2
      simp only [dict_insert, h2, if_false, List.map_cons, List.nodup_cons]
      refine ⟨?_, h3⟩
      intro hmem
      rcases List.mem_map.1 hmem with ⟨e2, he2, hfst⟩
      rcases mem_dict_insert he2 with h4 | h4
      · exact h2 (by rw [← hfst, h4])
      · exact h.1 (List.mem_map.2 ⟨e2, h4, hfst⟩)

end DictLemmas

/-! ## Snapshot lemmas. -/

/-- Entries of a left fold of dict inserts come from the seed dict or from
the inserted pairs. -/
theorem mem_foldl_snapshot {prs : List PullRequest} {d : PRDict}
    {e : Nat × PullRequest}
    (h : e ∈ prs.foldl (fun d pr => dict_insert pr.number pr d) d) :
    e ∈ d ∨ ∃ pr ∈ prs, e = (pr.number, pr) := by
  induction prs generalizing d with
  | nil => exact Or.inl h
  | cons pr rest ih =>
    simp only [List.foldl_cons] at h
    rcases ih h with h2 | h2
    · rcases mem_dict_insert h2 with h3 | h3
      · exact Or.inr ⟨pr, by simp, h3⟩
      · exact Or.inl h3
    · rcases h2 with ⟨q, hq, he⟩
      exact Or.inr ⟨q, List.mem_cons_of_mem _ hq, he⟩

theorem mem_snapshot_of {prs : List PullRequest} {e : Nat × PullRequest}
    (h : e ∈ snapshot_of prs) : ∃ pr ∈ prs, e = (pr.number, pr) := by
  rcases mem_foldl_snapshot (d := []) h with h2 | h2
  · simp at h2
  · exact h2

/-- A fold of inserts whose keys all differ from `k` does not change the
lookup at `k`. -/
theorem lookup_foldl_of_not_mem {prs : List PullRequest} {d : PRDict}
    {k : Nat} (h : ∀ pr ∈ prs, pr.number ≠ k) :
    dict_lookup k (prs.foldl (fun d pr => dict_insert pr.number pr d) d) =
      dict_lookup k d := by
  induction prs generalizing d with
  | nil => rfl
  | cons pr rest ih =>
    simp only [List.foldl_cons]
    rw [ih (fun q hq => h q (List.mem_cons_of_mem _ hq)),
      dict_lookup_insert_ne _ _ _ _ (h pr (by simp))]

/-- Looking up a key that no fetched record carries yields `none`. -/
theorem snapshot_lookup_none {prs : List PullRequest} {k : Nat}
    (h : ∀ pr ∈ prs, pr.number ≠ k) :
    dict_lookup k (snapshot_of prs) = none := by
  unfold snapshot_of
  rw [lookup_foldl_of_not_mem h]
  rfl

/-- Fold version of `snapshot_lookup_self`, generalized over the seed. -/
theorem lookup_foldl_self {prs : List PullRequest} {pr : PullRequest}
    (hnd : (prs.map (·.number)).Nodup) (hmem : pr ∈ prs) (d : PRDict) :
    dict_lookup pr.number
      (prs.foldl (fun d pr => dict_insert pr.number pr d) d) = some pr := by
  induction prs generalizing d with
  | nil => simp at hmem
  | cons q rest ih =>
    simp only [List.map_cons, List.nodup_cons] at hnd
    simp only [List.foldl_cons]
    rcases List.mem_cons.1 hmem with h | h
    · subst h
      have : ∀ r ∈ rest, r.number ≠ pr.number := by
        intro r hr he
        exact hnd.1 (List.mem_map.2 ⟨r, hr, he⟩)
      rw [lookup_foldl_of_not_mem this, dict_lookup_insert_self]
    · exact ih hnd.2 h _

/-- With pairwise-distinct PR numbers, the snapshot maps each record's
number back to the record itself. -/
theorem snapshot_lookup_self {prs : List PullRequest} {pr : PullRequest}
    (hnd : (prs.map (·.number)).Nodup) (hmem : pr ∈ prs) :
    dict_lookup pr.number (snapshot_of prs) = some pr :=
  lookup_foldl_self hnd hmem []

/-! ## Diff-engine membership characterizations. -/

theorem mem_diff_new {current : List PullRequest} {previous : PRDict}
    {pr : PullRequest} :
    pr ∈ diff_new current previous ↔
      pr ∈ current ∧ dict_lookup pr.number previous = none := by
  simp [diff_new, List.mem_filter, Option.isNone_iff_eq_none]

theorem mem_diff_updated {current : List PullRequest} {previous : PRDict}
    {pr : PullRequest} :
    pr ∈ diff_updated current previous ↔
      pr ∈ current ∧ ∃ old, dict_lookup pr.number previous = some old ∧
        pr.updated_at ≠ old.updated_at := by
  simp only [diff_updated, List.mem_filter]
  cases h : dict_lookup pr.number previous with
  | none => simp [h]
  | some old => simp [h, bne_iff_ne]

theorem mem_diff_closed {current : List PullRequest} {previous : PRDict}
    {pr : PullRequest} (hwf : ∀ e ∈ previous, (e.2).number = e.1) :
    pr ∈ diff_closed current previous ↔
      (pr.number, pr) ∈ previous ∧ ∀ q ∈ current, q.number ≠ pr.number := by
  simp only [diff_closed, List.mem_map, List.mem_filter]
  constructor
  · rintro ⟨⟨k, v⟩, ⟨hmem, hpred⟩, hv⟩
    simp only at hv
    have hk : pr.number = k := by
      rw [← hv]
      exact hwf _ hmem
    simp only [Bool.not_eq_true', List.any_eq_false] at hpred
    constructor
    · rw [hk, ← hv]
      exact hmem
    · intro q hq heq
      have h2 := hpred q hq
      rw [hk] at heq
      simp [heq] at h2
  · rintro ⟨hmem, hall⟩
    refine ⟨(pr.number, pr), ⟨hmem, ?_⟩, rfl⟩
    simp only [Bool.not_eq_true', List.any_eq_false]
    intro q hq h
    exact hall q hq (by simpa using h)

/-- C2: the claim says the status of a closed or merged record, and of an
open record the viewer is uninvolved in, is the neutral value `OPEN`; but
`PRStatus` has no `OPEN` member, so `_determine_pr_status` raises
`AttributeError` on exactly those branches (modelled by `none`), while the
`REVIEWED` / `NEEDS_REVIEW` precedence of the remaining branches does hold:
with `user_has_reviewed` true on an open PR the result is `REVIEWED` no
matter which review requests are outstanding. -/
theorem c2_determine_pr_status_open_member_missing :
    determine_pr_status PRState.closed [] true true true = none ∧
    determine_pr_status PRState.merged [] true false false = none ∧
    determine_pr_status PRState.open_ [] false false false = none ∧
    (∀ a b : Bool,
      determine_pr_status PRState.open_ [] true a b =
        some PRStatus.reviewed) ∧
    determine_pr_status PRState.open_ [] false false true =
      some PRStatus.needs_review ∧
    determine_pr_status PRState.open_ [] false true false =
      some PRStatus.needs_review := by
  decide

/-- C4: `_convert_pr_data` marks the viewer a requested reviewer whenever
`requested_teams` is non-empty (and the viewer has not reviewed), without
checking that any requested team is one of the viewer's teams; the spec's
predicate, which does check membership, disagrees on a PR whose only
requested team is foreign to the viewer.  The has-reviewed suppression of
team-level requests (third conjunct) does hold. -/
theorem c4_requested_reviewer_ignores_team_membership :
    user_is_requested_reviewer_code alice_login [] [platform_team] false =
        true ∧
    user_is_requested_reviewer_spec alice_login [] [platform_team] []
        false = false ∧
    user_is_requested_reviewer_code alice_login [] [platform_team] true =
      false := by
  decide

/-! ## Review-collapse lemmas. -/

theorem mem_dict_insert_nodup {α β : Type} [DecidableEq α] {k : α} {v : β}
    {d : List (α × β)} {e : α × β} (hnd : (d.map Prod.fst).Nodup)
    (h : e ∈ dict_insert k v d) : e = (k, v) ∨ (e ∈ d ∧ e.1 ≠ k) := by
  induction d with
  | nil =>
    simp only [dict_insert, List.mem_singleton] at h
    exact Or.inl h
  | cons e2 rest ih =>
    obtain ⟨k2, v2⟩ := e2
    simp only [List.map_cons, List.nodup_cons] at hnd
    by_cases h2 : k2 = k
    · subst h2
      rw [show dict_insert k2 v ((k2, v2) :: rest) = (k2, v) :: rest by
        simp [dict_insert]] at h
      rcases List.mem_cons.1 h with h3 | h3
      · exact Or.inl h3
      · refine Or.inr ⟨List.mem_cons_of_mem _ h3, ?_⟩
        intro heq
        exact hnd.1 (List.mem_map.2 ⟨e, h3, heq⟩)
    · rw [show dict_insert k v ((k2, v2) :: rest) =
          (k2, v2) :: dict_insert k v rest by
        simp [dict_insert, h2]] at h
      rcases List.mem_cons.1 h with h3 | h3
      · subst h3
        exact Or.inr ⟨List.mem_cons_self _ _, h2⟩
      · rcases ih hnd.2 h3 with h4 | h4
        · exact Or.inl h4
        · exact Or.inr ⟨List.mem_cons_of_mem _ h4.1, h4.2⟩

theorem dict_lookup_insert {α β : Type} [DecidableEq α] (k k2 : α) (v : β)
    (d : List (α × β)) :
    dict_lookup k (dict_insert k2 v d) =
      if k2 = k then some v else dict_lookup k d := by
  by_cases h : k2 = k
  · subst h
    rw [if_pos rfl, dict_lookup_insert_self]
  · rw [if_neg h, dict_lookup_insert_ne _ _ _ _ h]

theorem dict_lookup_of_mem_nodup {α β : Type} [DecidableEq α]
    {d : List (α × β)} {k : α} {v : β}
    (hnd : (d.map Prod.fst).Nodup) (h : (k, v) ∈ d) :
    dict_lookup k d = some v := by
  induction d with
  | nil => simp at h
  | cons e rest ih =>
    obtain ⟨k2, v2⟩ := e
    simp only [List.map_cons, List.nodup_cons] at hnd
    rcases List.mem_cons.1 h with h2 | h2
    · injection h2 with h3 h4
      subst h3
      subst h4
      simp [dict_lookup]
    · have hne : k2 ≠ k := by
        intro heq
        exact hnd.1 (List.mem_map.2 ⟨(k, v), h2, heq.symm⟩)
      simp only [dict_lookup, hne, if_false]
      exact ih hnd.2 h2

/-- Invariant of the `latest_reviews_by_user` fold: after folding `rest`
into a dict `d` that correctly collapses `done`, the dict correctly
collapses `done ++ rest` — keys are distinct logins, each stored review is
a time-maximal entry of its login, and every processed login is stored. -/
theorem latest_fold_spec (rest : List Review) :
    ∀ (done : List Review) (d : List (String × Review)),
    (∀ r ∈ rest, (r.submitted_at).isSome = true) →
    (d.map Prod.fst).Nodup →
    (∀ e ∈ d, e.2.user.login = e.1 ∧ e.2 ∈ done ∧
      ∀ r2 ∈ done, r2.user.login = e.1 →
        ∃ t t2, e.2.submitted_at = some t ∧ r2.submitted_at = some t2 ∧
          t2 ≤ t) →
    (∀ r ∈ done, dict_lookup r.user.login d ≠ none) →
    (((rest.foldl
        (fun d review =>
          match dict_lookup review.user.login d with
          | none => dict_insert review.user.login review d
          | some existing =>
            match review.submitted_at, existing.submitted_at with
            | some t, some t2 =>
              if t2 < t then dict_insert review.user.login review d else d
            | _, _ => d)
        d).map Prod.fst).Nodup ∧
    (∀ e ∈ rest.foldl
        (fun d review =>
          match dict_lookup review.user.login d with
          | none => dict_insert review.user.login review d
          | some existing =>
            match review.submitted_at, existing.submitted_at with
            | some t, some t2 =>
              if t2 < t then dict_insert review.user.login review d else d
            | _, _ => d)
        d,
      e.2.user.login = e.1 ∧ e.2 ∈ done ++ rest ∧
      ∀ r2 ∈ done ++ rest, r2.user.login = e.1 →
        ∃ t t2, e.2.submitted_at = some t ∧ r2.submitted_at = some t2 ∧
          t2 ≤ t) ∧
    (∀ r ∈ done ++ rest,
      dict_lookup r.user.login
        (rest.foldl
          (fun d review =>
            match dict_lookup review.user.login d with
            | none => dict_insert review.user.login review d
            | some existing =>
              match review.submitted_at, existing.submitted_at with
              | some t, some t2 =>
                if t2 < t then dict_insert review.user.login review d
                else d
              | _, _ => d)
          d) ≠ none)) := by
  induction rest with
  | nil =>
    intro done d hsub hnd hent hcov
    simp only [List.foldl_nil, List.append_nil]
    exact ⟨hnd, hent, hcov⟩
  | cons review rest2 ih =>
    intro done d hsub hnd hent hcov
    have hrev : (review.submitted_at).isSome = true := hsub review (by simp)
    obtain ⟨t, ht⟩ := Option.isSome_iff_exists.1 hrev
    have hsub2 : ∀ r ∈ rest2, (r.submitted_at).isSome = true :=
      fun r hr => hsub r (List.mem_cons_of_mem _ hr)
    have happ : ∀ (p : List Review → Prop),
        p ((done ++ [review]) ++ rest2) → p (done ++ review :: rest2) := by
      intro p hp
      rwa [List.append_assoc, List.singleton_append] at hp
    cases hlk : dict_lookup review.user.login d with
    | none =>
      have hstep : (review :: rest2).foldl
            (fun d review =>
              match dict_lookup review.user.login d with
              | none => dict_insert review.user.login review d
              | some existing =>
                match review.submitted_at, existing.submitted_at with
                | some t, some t2 =>
                  if t2 < t then dict_insert review.user.login review d
                  else d
                | _, _ => d)
            d =
          rest2.foldl
            (fun d review =>
              match dict_lookup review.user.login d with
              | none => dict_insert review.user.login review d
              | some existing =>
                match review.submitted_at, existing.submitted_at with
                | some t, some t2 =>
                  if t2 < t then dict_insert review.user.login review d
                  else d
                | _, _ => d)
            (dict_insert review.user.login review d) := by
        simp only [List.foldl_cons, hlk]
      rw [hstep]
      have hent2 : ∀ e ∈ dict_insert review.user.login review d,
          e.2.user.login = e.1 ∧ e.2 ∈ done ++ [review] ∧
          ∀ r2 ∈ done ++ [review], r2.user.login = e.1 →
            ∃ ta tb, e.2.submitted_at = some ta ∧
              r2.submitted_at = some tb ∧ tb ≤ ta := by
        intro e he
        rcases mem_dict_insert_nodup hnd he with h | ⟨hmem, hne⟩
        · subst h
          refine ⟨rfl, by simp, ?_⟩
          intro r2 hr2 hlogin
          rcases List.mem_append.1 hr2 with h2 | h2
          · have hc := hcov r2 h2
            rw [hlogin] at hc
            exact absurd hlk hc
          · rw [List.mem_singleton.1 h2]
            exact ⟨t, t, ht, ht, le_refl t⟩
        · rcases hent e hmem with ⟨hlog, hmem2, hmax⟩
          refine ⟨hlog, List.mem_append_left _ hmem2, ?_⟩
          intro r2 hr2 hlogin
          rcases List.mem_append.1 hr2 with h2 | h2
          · exact hmax r2 h2 hlogin
          · rw [List.mem_singleton.1 h2] at hlogin
            exact absurd hlogin.symm hne
      have hcov2 : ∀ r ∈ done ++ [review],
          dict_lookup r.user.login
            (dict_insert review.user.login review d) ≠ none := by
        intro r hr
        rw [dict_lookup_insert]
        rcases List.mem_append.1 hr with h2 | h2
        · by_cases h3 : review.user.login = r.user.login
          · simp [h3]
          · rw [if_neg h3]
            exact hcov r h2
        · rw [List.mem_singleton.1 h2, if_pos rfl]
          simp
      have hres := ih (done ++ [review])
        (dict_insert review.user.login review d) hsub2
        (dict_keys_nodup_insert hnd) hent2 hcov2
      refine ⟨hres.1, ?_, ?_⟩
      · intro e he
        have h4 := hres.2.1 e he
        exact ⟨h4.1,
          happ (fun l => e.2 ∈ l) h4.2.1,
          fun r2 hr2 => h4.2.2 r2
            (by rwa [List.append_assoc, List.singleton_append])⟩
      · intro r hr
        exact hres.2.2 r
          (by rwa [List.append_assoc, List.singleton_append])
    | some existing =>
      have hexmem := dict_lookup_mem hlk
      rcases hent _ hexmem with ⟨hexlog, hexdone, hexmax⟩
      simp only at hexlog hexdone hexmax
      obtain ⟨t2, t2b, hext, hexb, _⟩ := hexmax existing hexdone hexlog
      have hstep : (review :: rest2).foldl
            (fun d review =>
              match dict_lookup review.user.login d with
              | none => dict_insert review.user.login review d
              | some existing =>
                match review.submitted_at, existing.submitted_at with
                | some t, some t2 =>
                  if t2 < t then dict_insert review.user.login review d
                  else d
                | _, _ => d)
            d =
          rest2.foldl
            (fun d review =>
              match dict_lookup review.user.login d with
              | none => dict_insert review.user.login review d
              | some existing =>
                match review.submitted_at, existing.submitted_at with
                | some t, some t2 =>
                  if t2 < t then dict_insert review.user.login review d
                  else d
                | _, _ => d)
            (if t2 < t then dict_insert review.user.login review d
              else d) := by
        simp only [List.foldl_cons, hlk, ht, hext]
      rw [hstep]
      by_cases hlt : t2 < t
      · rw [if_pos hlt]
        have hent2 : ∀ e ∈ dict_insert review.user.login review d,
            e.2.user.login = e.1 ∧ e.2 ∈ done ++ [review] ∧
            ∀ r2 ∈ done ++ [review], r2.user.login = e.1 →
              ∃ ta tb, e.2.submitted_at = some ta ∧
                r2.submitted_at = some tb ∧ tb ≤ ta := by
          intro e he
          rcases mem_dict_insert_nodup hnd he with h | ⟨hmem, hne⟩
          · subst h
            refine ⟨rfl, by simp, ?_⟩
            intro r2 hr2 hlogin
            rcases List.mem_append.1 hr2 with h2 | h2
            · rcases hexmax r2 h2 (by rw [hlogin]) with
                ⟨ta, tb, hea, heb, hba⟩
              rw [hext] at hea
              injection hea with hea
              refine ⟨t, tb, ht, heb, ?_⟩
              rw [← hea] at hba
              exact le_trans hba (Nat.le_of_lt hlt)
            · rw [List.mem_singleton.1 h2]
              exact ⟨t, t, ht, ht, le_refl t⟩
          · rcases hent e hmem with ⟨hlog, hmem2, hmax⟩
            refine ⟨hlog, List.mem_append_left _ hmem2, ?_⟩
            intro r2 hr2 hlogin
            rcases List.mem_append.1 hr2 with h2 | h2
            · exact hmax r2 h2 hlogin
            · rw [List.mem_singleton.1 h2] at hlogin
              exact absurd hlogin.symm hne
        have hcov2 : ∀ r ∈ done ++ [review],
            dict_lookup r.user.login
              (dict_insert review.user.login review d) ≠ none := by
          intro r hr
          rw [dict_lookup_insert]
          rcases List.mem_append.1 hr with h2 | h2
          · by_cases h3 : review.user.login = r.user.login
            · simp [h3]
            · rw [if_neg h3]
              exact hcov r h2
          · rw [List.mem_singleton.1 h2, if_pos rfl]
            simp
        have hres := ih (done ++ [review])
          (dict_insert review.user.login review d) hsub2
          (dict_keys_nodup_insert hnd) hent2 hcov2
        refine ⟨hres.1, ?_, ?_⟩
        · intro e he
          have h4 := hres.2.1 e he
          exact ⟨h4.1,
            (by rwa [List.append_assoc, List.singleton_append] at h4 :
              e.2.user.login = e.1 ∧ e.2 ∈ done ++ review :: rest2 ∧ _).2.1,
            fun r2 hr2 => h4.2.2 r2
              (by rwa [List.append_assoc, List.singleton_append])⟩
        · intro r hr
          exact hres.2.2 r
            (by rwa [List.append_assoc, List.singleton_append])
      · rw [if_neg hlt]
        have hent2 : ∀ e ∈ d,
            e.2.user.login = e.1 ∧ e.2 ∈ done ++ [review] ∧
            ∀ r2 ∈ done ++ [review], r2.user.login = e.1 →
              ∃ ta tb, e.2.submitted_at = some ta ∧
                r2.submitted_at = some tb ∧ tb ≤ ta := by
          intro e he
          rcases hent e he with ⟨hlog, hmem2, hmax⟩
          refine ⟨hlog, List.mem_append_left _ hmem2, ?_⟩
          intro r2 hr2 hlogin
          rcases List.mem_append.1 hr2 with h2 | h2
          · exact hmax r2 h2 hlogin
          · have hr2rev : r2 = review := List.mem_singleton.1 h2
            subst hr2rev
            have hlk2 : dict_lookup e.1 d = some e.2 := by
              have he2 : (e.1, e.2) ∈ d := by
                cases e
                exact he
              exact dict_lookup_of_mem_nodup hnd he2
            rw [← hlogin, hlk] at hlk2
            have hval : existing = e.2 := Option.some.inj hlk2
            have hts : e.2.submitted_at = some t2 := by
              rw [← hval]
              exact hext
            exact ⟨t2, t, hts, ht, Nat.le_of_not_lt hlt⟩
        have hcov2 : ∀ r ∈ done ++ [review],
            dict_lookup r.user.login d ≠ none := by
          intro r hr
          rcases List.mem_append.1 hr with h2 | h2
          · exact hcov r h2
          · rw [List.mem_singleton.1 h2, hlk]
            simp
        have hres := ih (done ++ [review]) d hsub2 hnd hent2 hcov2
        refine ⟨hres.1, ?_, ?_⟩
        · intro e he
          have h4 := hres.2.1 e he
          exact ⟨h4.1,
            happ (fun l => e.2 ∈ l) h4.2.1,
            fun r2 hr2 => h4.2.2 r2
              (by rwa [List.append_assoc, List.singleton_append])⟩
        · intro r hr
          exact hres.2.2 r
            (by rwa [List.append_assoc, List.singleton_append])

theorem rest_all_reviews_isSome {raws : List RawReview}
    (hsub : ∀ r ∈ raws, (r.submitted_at).isSome = true) :
    ∀ r ∈ rest_all_reviews raws, (r.submitted_at).isSome = true := by
  intro r hr
  unfold rest_all_reviews at hr
  rcases List.mem_map.1 hr with ⟨raw, hraw, hconv⟩
  rw [← hconv]
  exact hsub raw (List.mem_filter.1 hraw).1

/-- C9 amended: provided every raw entry carries a submission time, the
collapse keeps at most one entry per reviewer; every kept entry is
decisive; every kept entry is a time-maximal APPROVED / CHANGES_REQUESTED /
COMMENTED entry of its reviewer; and a decisive entry that is strictly
latest among its reviewer's entries is kept.  Consequently a reviewer
appears in the output iff their chronologically latest entry is decisive —
in particular a reviewer whose only entries are comments, or whose
decisive review is followed by a later comment, does not appear. -/
theorem c9_collapse_keeps_latest_entry_if_decisive (raws : List RawReview)
    (hsub : ∀ r ∈ raws, (r.submitted_at).isSome = true) :
    ((get_pull_request_reviews raws).map (fun r => r.user.login)).Nodup ∧
    (∀ r ∈ get_pull_request_reviews raws,
      r.state = ReviewState.approved ∨
        r.state = ReviewState.changes_requested) ∧
    (∀ r ∈ get_pull_request_reviews raws,
      r ∈ rest_all_reviews raws ∧
      ∀ r2 ∈ rest_all_reviews raws, r2.user.login = r.user.login →
        ∃ t t2, r.submitted_at = some t ∧ r2.submitted_at = some t2 ∧
          t2 ≤ t) ∧
    (∀ r ∈ rest_all_reviews raws,
      (r.state = ReviewState.approved ∨
        r.state = ReviewState.changes_requested) →
      (∀ r2 ∈ rest_all_reviews raws, r2.user.login = r.user.login →
        r2 ≠ r → ∃ t t2, r.submitted_at = some t ∧
          r2.submitted_at = some t2 ∧ t2 < t) →
      r ∈ get_pull_request_reviews raws) := by
  have hpool := rest_all_reviews_isSome hsub
  have hspec := latest_fold_spec (rest_all_reviews raws) [] [] hpool
    (by simp) (by simp) (by simp)
  simp only [List.nil_append] at hspec
  have hdef : latest_reviews_by_user (rest_all_reviews raws) =
      (rest_all_reviews raws).foldl
        (fun d review =>
          match dict_lookup review.user.login d with
          | none => dict_insert review.user.login review d
          | some existing =>
            match review.submitted_at, existing.submitted_at with
            | some t, some t2 =>
              if t2 < t then dict_insert review.user.login review d else d
            | _, _ => d)
        [] := rfl
  rw [← hdef] at hspec
  obtain ⟨hnd, hent, hcov⟩ := hspec
  refine ⟨?_, ?_, ?_, ?_⟩
  · have hsubl : ((get_pull_request_reviews raws).map
        (fun r => r.user.login)).Sublist
        (((latest_reviews_by_user (rest_all_reviews raws)).map
          (·.2)).map (fun r => r.user.login)) :=
      List.Sublist.map _ (List.filter_sublist _)
    have heq : (((latest_reviews_by_user (rest_all_reviews raws)).map
        (·.2)).map (fun r => r.user.login)) =
        (latest_reviews_by_user (rest_all_reviews raws)).map Prod.fst := by
      rw [List.map_map]
      exact List.map_congr_left (fun e he => (hent e he).1)
    exact List.Nodup.sublist hsubl (heq ▸ hnd)
  · intro r hr
    have hp := (List.mem_filter.1 hr).2
    simp only [Bool.or_eq_true, beq_iff_eq] at hp
    exact hp
  · intro r hr
    have hr1 := (List.mem_filter.1 hr).1
    rcases List.mem_map.1 hr1 with ⟨e, he, hev⟩
    rcases hent e he with ⟨hlog, hmem, hmax⟩
    subst hev
    refine ⟨hmem, ?_⟩
    intro r2 h2 hlogin
    exact hmax r2 h2 (hlogin.trans hlog)
  · intro r hr hdec hstrict
    have hc := hcov r hr
    cases hv : dict_lookup r.user.login
        (latest_reviews_by_user (rest_all_reviews raws)) with
    | none => exact absurd hv hc
    | some v =>
      have hvmem := dict_lookup_mem hv
      rcases hent _ hvmem with ⟨hlog2, hvpool, hvmax⟩
      simp only at hlog2 hvpool hvmax
      obtain ⟨tv, tr, hvt, hrt, htle⟩ := hvmax r hr rfl
      by_cases hvr : v = r
      · subst hvr
        refine List.mem_filter.2 ⟨List.mem_map.2 ⟨_, hvmem, rfl⟩, ?_⟩
        rcases hdec with h | h <;> simp [h]
      · exfalso
        rcases hstrict v hvpool hlog2 hvr with ⟨ta, tb, hra, hvb, hlt⟩
        rw [hrt] at hra
        injection hra with hra
        rw [hvt] at hvb
        injection hvb with hvb
        rw [← hra, ← hvb] at hlt
        exact absurd htle (Nat.not_le_of_lt hlt)

/-- Witness for `c9_collapse_keeps_latest_entry_if_decisive` at a raw
list where bob comments first and approves later. -/
theorem c9_collapse_keeps_latest_entry_if_decisive_witness :
    (∀ r ∈ c9_good_raws, (r.submitted_at).isSome = true) ∧
    (((get_pull_request_reviews c9_good_raws).map
        (fun r => r.user.login)).Nodup ∧
    (∀ r ∈ get_pull_request_reviews c9_good_raws,
      r.state = ReviewState.approved ∨
        r.state = ReviewState.changes_requested) ∧
    (∀ r ∈ get_pull_request_reviews c9_good_raws,
      r ∈ rest_all_reviews c9_good_raws ∧
      ∀ r2 ∈ rest_all_reviews c9_good_raws,
        r2.user.login = r.user.login →
        ∃ t t2, r.submitted_at = some t ∧ r2.submitted_at = some t2 ∧
          t2 ≤ t) ∧
    (∀ r ∈ rest_all_reviews c9_good_raws,
      (r.state = ReviewState.approved ∨
        r.state = ReviewState.changes_requested) →
      (∀ r2 ∈ rest_all_reviews c9_good_raws,
        r2.user.login = r.user.login →
        r2 ≠ r → ∃ t t2, r.submitted_at = some t ∧
          r2.submitted_at = some t2 ∧ t2 < t) →
      r ∈ get_pull_request_reviews c9_good_raws)) :=
  ⟨by decide,
    c9_collapse_keeps_latest_entry_if_decisive c9_good_raws (by decide)⟩

/-- C9 counterexample: reviewer `bob` submits an approval at time 1 and a
plain comment at time 2; the collapse keeps the comment (latest entry) and
then the decisive-only filter drops it, so `bob` — who has a decisive
review in the input — does not appear in the output at all, contradicting
the claim that the output contains his latest decisive review. -/
theorem c9_counterexample_latest_comment_hides_approval :
    c9_raws.filter (fun r => r.state == RawReviewState.approved) ≠ [] ∧
    get_pull_request_reviews c9_raws = [] := by
  decide

/-- C3 counterexample: a team fetch containing two same-numbered records
from two repositories (the team snapshot is keyed by PR number alone, so
the second record overwrites the first in the cache); running
`_collect_team_prs` twice with this unchanged fetch result classifies the
first record as `updated` on the second run, because it is compared
against the other repository's record stored under the shared number. -/
theorem c3_counterexample_number_collision_breaks_idempotence :
    Event.team_pr_update platform_team_key sample_pr ChangeKind.updated ∈
      (collect_team_prs true c3_fetch platform_team_key
          platform_subscription
          (collect_team_prs true c3_fetch platform_team_key
              platform_subscription []).1).2.1 := by
  decide

/-- C1: the diff step classifies a fetched PR as new exactly when its
number is absent from the previous snapshot, as updated exactly when the
number is present with a different update timestamp, and as closed exactly
when a snapshot number no longer occurs in the current fetch; a PR present
in both sides with an identical timestamp lands in none of the three
lists, whatever its other fields; and the three lists are pairwise
disjoint.  The well-formedness hypothesis states that the previous
snapshot maps each number to a record carrying that number, which the
cache construction `{pr.number: pr for pr in current_prs}` guarantees. -/
theorem c1_diff_classification (current : List PullRequest)
    (previous : PRDict) (hwf : ∀ e ∈ previous, (e.2).number = e.1) :
    (∀ pr, pr ∈ diff_new current previous ↔
      pr ∈ current ∧ dict_lookup pr.number previous = none) ∧
    (∀ pr, pr ∈ diff_updated current previous ↔
      pr ∈ current ∧ ∃ old, dict_lookup pr.number previous = some old ∧
        pr.updated_at ≠ old.updated_at) ∧
    (∀ pr, pr ∈ diff_closed current previous ↔
      (pr.number, pr) ∈ previous ∧ ∀ q ∈ current, q.number ≠ pr.number) ∧
    (∀ pr old, pr ∈ current →
      dict_lookup pr.number previous = some old →
      pr.updated_at = old.updated_at →
      pr ∉ diff_new current previous ∧
        pr ∉ diff_updated current previous ∧
        pr ∉ diff_closed current previous) ∧
    (∀ pr, pr ∈ diff_new current previous →
      pr ∉ diff_updated current previous ∧
        pr ∉ diff_closed current previous) ∧
    (∀ pr, pr ∈ diff_updated current previous →
      pr ∉ diff_closed current previous) := by
  refine ⟨fun pr => mem_diff_new, fun pr => mem_diff_updated,
    fun pr => mem_diff_closed hwf, ?_, ?_, ?_⟩
  · intro pr old hcur hlk heq
    refine ⟨?_, ?_, ?_⟩
    · intro h
      rw [mem_diff_new] at h
      rw [h.2] at hlk
      exact Option.noConfusion hlk
    · intro h
      rw [mem_diff_updated] at h
      rcases h.2 with ⟨old2, hlk2, hne⟩
      rw [hlk] at hlk2
      have h3 : old = old2 := by injection hlk2
      exact hne (h3 ▸ heq)
    · intro h
      rw [mem_diff_closed hwf] at h
      exact h.2 pr hcur rfl
  · intro pr h
    rw [mem_diff_new] at h
    refine ⟨?_, ?_⟩
    · intro h2
      rw [mem_diff_updated] at h2
      rcases h2.2 with ⟨old, hlk, _⟩
      rw [h.2] at hlk
      exact Option.noConfusion hlk
    · intro h2
      rw [mem_diff_closed hwf] at h2
      exact h2.2 pr h.1 rfl
  · intro pr h h2
    rw [mem_diff_updated] at h
    rw [mem_diff_closed hwf] at h2
    exact h2.2 pr h.1 rfl

/-- Witness for `c1_diff_classification` at a concrete fetch and snapshot. -/
theorem c1_diff_classification_witness :
    (∀ e ∈ c1_previous, (e.2).number = e.1) ∧
    ((∀ pr, pr ∈ diff_new [sample_pr, sample_pr2] c1_previous ↔
      pr ∈ [sample_pr, sample_pr2] ∧
        dict_lookup pr.number c1_previous = none) ∧
    (∀ pr, pr ∈ diff_updated [sample_pr, sample_pr2] c1_previous ↔
      pr ∈ [sample_pr, sample_pr2] ∧
        ∃ old, dict_lookup pr.number c1_previous = some old ∧
          pr.updated_at ≠ old.updated_at) ∧
    (∀ pr, pr ∈ diff_closed [sample_pr, sample_pr2] c1_previous ↔
      (pr.number, pr) ∈ c1_previous ∧
        ∀ q ∈ [sample_pr, sample_pr2], q.number ≠ pr.number) ∧
    (∀ pr old, pr ∈ [sample_pr, sample_pr2] →
      dict_lookup pr.number c1_previous = some old →
      pr.updated_at = old.updated_at →
      pr ∉ diff_new [sample_pr, sample_pr2] c1_previous ∧
        pr ∉ diff_updated [sample_pr, sample_pr2] c1_previous ∧
        pr ∉ diff_closed [sample_pr, sample_pr2] c1_previous) ∧
    (∀ pr, pr ∈ diff_new [sample_pr, sample_pr2] c1_previous →
      pr ∉ diff_updated [sample_pr, sample_pr2] c1_previous ∧
        pr ∉ diff_closed [sample_pr, sample_pr2] c1_previous) ∧
    (∀ pr, pr ∈ diff_updated [sample_pr, sample_pr2] c1_previous →
      pr ∉ diff_closed [sample_pr, sample_pr2] c1_previous)) :=
  ⟨by decide, c1_diff_classification [sample_pr, sample_pr2] c1_previous
    (by decide)⟩

/-- C3 amended: with pairwise-distinct PR numbers in the unchanged fetch
result, the first run replaces the cache entry wholesale with the full
current record set (both on the repository path and the team path), and
the second run's diff against that snapshot classifies nothing as new,
updated or closed. -/
theorem c3_idempotent_when_numbers_distinct (fetch : Fetcher)
    (key : String) (rsub : RepositorySubscription)
    (tsub : TeamSubscription) (prs : List PullRequest)
    (hok : fetch key = Except.ok prs)
    (hnd : (prs.map (·.number)).Nodup) :
    (∀ cache_entry,
      (poll_repository true fetch key rsub cache_entry).1 =
        snapshot_of prs) ∧
    (∀ cache_entry,
      (collect_team_prs true fetch key tsub cache_entry).1 =
        snapshot_of prs) ∧
    diff_new prs (snapshot_of prs) = [] ∧
    diff_updated prs (snapshot_of prs) = [] ∧
    diff_closed prs (snapshot_of prs) = [] := by
  refine ⟨?_, ?_, ?_, ?_, ?_⟩
  · intro cache_entry
    simp [poll_repository, get_pull_requests_rest, hok]
  · intro cache_entry
    simp [collect_team_prs, get_team_pull_requests_rest, hok]
  · unfold diff_new
    rw [List.filter_eq_nil_iff]
    intro pr hmem
    simp [snapshot_lookup_self hnd hmem]
  · unfold diff_updated
    rw [List.filter_eq_nil_iff]
    intro pr hmem
    simp [snapshot_lookup_self hnd hmem]
  · unfold diff_closed
    rw [List.filter_eq_nil_iff.2, List.map_nil]
    intro e hmem
    rcases mem_snapshot_of hmem with ⟨pr, hpr, he⟩
    subst he
    simp only [Bool.not_eq_true', Bool.not_eq_false]
    exact List.any_eq_true.2 ⟨pr, hpr, by simp⟩

/-- Witness for `c3_idempotent_when_numbers_distinct` at a two-record
fetch with distinct numbers. -/
theorem c3_idempotent_when_numbers_distinct_witness :
    (two_pr_fetch widgets_repo = Except.ok [sample_pr, sample_pr2] ∧
      (([sample_pr, sample_pr2].map (·.number)).Nodup)) ∧
    ((∀ cache_entry,
      (poll_repository true two_pr_fetch widgets_repo
          widgets_subscription cache_entry).1 =
        snapshot_of [sample_pr, sample_pr2]) ∧
    (∀ cache_entry,
      (collect_team_prs true two_pr_fetch widgets_repo
          platform_subscription cache_entry).1 =
        snapshot_of [sample_pr, sample_pr2]) ∧
    diff_new [sample_pr, sample_pr2]
      (snapshot_of [sample_pr, sample_pr2]) = [] ∧
    diff_updated [sample_pr, sample_pr2]
      (snapshot_of [sample_pr, sample_pr2]) = [] ∧
    diff_closed [sample_pr, sample_pr2]
      (snapshot_of [sample_pr, sample_pr2]) = []) :=
  ⟨⟨rfl, by decide⟩,
    c3_idempotent_when_numbers_distinct two_pr_fetch widgets_repo
      widgets_subscription platform_subscription [sample_pr, sample_pr2]
      rfl (by decide)⟩

/-- C5: in `_handle_pr_changes` a live-update broadcast for a new or
updated record is emitted exactly when the notification policy passes the
(record, subscription) pair, every closed record is broadcast
unconditionally, each broadcast is tagged with its change kind, and the
policy is the watch-all / watch-assigned / watch-review-requested
disjunction; the team-path handler `_handle_team_pr_changes` and its
policy behave identically. -/
theorem c5_broadcast_iff_policy (repo_name : String)
    (rsub : RepositorySubscription) (tsub : TeamSubscription)
    (new_prs updated_prs closed_prs : List PullRequest)
    (pr : PullRequest) :
    (Event.pr_update repo_name pr ChangeKind.new_pr ∈
        handle_pr_changes repo_name rsub new_prs updated_prs closed_prs ↔
      pr ∈ new_prs ∧ should_notify_for_pr pr rsub = true) ∧
    (Event.pr_update repo_name pr ChangeKind.updated ∈
        handle_pr_changes repo_name rsub new_prs updated_prs closed_prs ↔
      pr ∈ updated_prs ∧ should_notify_for_pr pr rsub = true) ∧
    (Event.pr_update repo_name pr ChangeKind.closed ∈
        handle_pr_changes repo_name rsub new_prs updated_prs closed_prs ↔
      pr ∈ closed_prs) ∧
    (should_notify_for_pr pr rsub =
      (rsub.watch_all_prs || rsub.watch_assigned_prs && pr.user_is_assigned
        || rsub.watch_review_requests && pr.user_is_requested_reviewer)) ∧
    (Event.team_pr_update repo_name pr ChangeKind.new_pr ∈
        handle_team_pr_changes repo_name tsub new_prs updated_prs
          closed_prs ↔
      pr ∈ new_prs ∧ should_notify_for_team_pr pr tsub = true) ∧
    (Event.team_pr_update repo_name pr ChangeKind.updated ∈
        handle_team_pr_changes repo_name tsub new_prs updated_prs
          closed_prs ↔
      pr ∈ updated_prs ∧ should_notify_for_team_pr pr tsub = true) ∧
    (Event.team_pr_update repo_name pr ChangeKind.closed ∈
        handle_team_pr_changes repo_name tsub new_prs updated_prs
          closed_prs ↔
      pr ∈ closed_prs) ∧
    (should_notify_for_team_pr pr tsub =
      (tsub.watch_all_prs || tsub.watch_assigned_prs && pr.user_is_assigned
        || tsub.watch_review_requests &&
          pr.user_is_requested_reviewer)) := by
  refine ⟨?_, ?_, ?_, ?_, ?_, ?_, ?_, ?_⟩
  · simp only [handle_pr_changes, List.mem_append, List.mem_map,
      List.mem_filter]
    constructor
    · rintro ((⟨q, ⟨hq, hn⟩, he⟩ | ⟨q, ⟨hq, hn⟩, he⟩) | ⟨q, hq, he⟩) <;>
        simp only [Event.pr_update.injEq] at he
      · rcases he with ⟨_, hq2, _⟩
        exact ⟨hq2 ▸ hq, hq2 ▸ hn⟩
      · exact absurd he.2.2 (by simp)
      · exact absurd he.2.2 (by simp)
    · rintro ⟨hmem, hn⟩
      exact Or.inl (Or.inl ⟨pr, ⟨hmem, hn⟩, rfl⟩)
  · simp only [handle_pr_changes, List.mem_append, List.mem_map,
      List.mem_filter]
    constructor
    · rintro ((⟨q, ⟨hq, hn⟩, he⟩ | ⟨q, ⟨hq, hn⟩, he⟩) | ⟨q, hq, he⟩) <;>
        simp only [Event.pr_update.injEq] at he
      · exact absurd he.2.2 (by simp)
      · rcases he with ⟨_, hq2, _⟩
        exact ⟨hq2 ▸ hq, hq2 ▸ hn⟩
      · exact absurd he.2.2 (by simp)
    · rintro ⟨hmem, hn⟩
      exact Or.inl (Or.inr ⟨pr, ⟨hmem, hn⟩, rfl⟩)
  · simp only [handle_pr_changes, List.mem_append, List.mem_map,
      List.mem_filter]
    constructor
    · rintro ((⟨q, ⟨hq, hn⟩, he⟩ | ⟨q, ⟨hq, hn⟩, he⟩) | ⟨q, hq, he⟩) <;>
        simp only [Event.pr_update.injEq] at he
      · exact absurd he.2.2 (by simp)
      · exact absurd he.2.2 (by simp)
      · exact he.2.1 ▸ hq
    · intro hmem
      exact Or.inr ⟨pr, hmem, rfl⟩
  · unfold should_notify_for_pr
    cases h1 : rsub.watch_all_prs <;>
      cases h2 : rsub.watch_assigned_prs && pr.user_is_assigned <;>
      cases h3 : rsub.watch_review_requests &&
        pr.user_is_requested_reviewer <;>
      simp [h1, h2, h3]
  · simp only [handle_team_pr_changes, List.mem_append, List.mem_map,
      List.mem_filter]
    constructor
    · rintro ((⟨q, ⟨hq, hn⟩, he⟩ | ⟨q, ⟨hq, hn⟩, he⟩) | ⟨q, hq, he⟩) <;>
        simp only [Event.team_pr_update.injEq] at he
      · rcases he with ⟨_, hq2, _⟩
        exact ⟨hq2 ▸ hq, hq2 ▸ hn⟩
      · exact absurd he.2.2 (by simp)
      · exact absurd he.2.2 (by simp)
    · rintro ⟨hmem, hn⟩
      exact Or.inl (Or.inl ⟨pr, ⟨hmem, hn⟩, rfl⟩)
  · simp only [handle_team_pr_changes, List.mem_append, List.mem_map,
      List.mem_filter]
    constructor
    · rintro ((⟨q, ⟨hq, hn⟩, he⟩ | ⟨q, ⟨hq, hn⟩, he⟩) | ⟨q, hq, he⟩) <;>
        simp only [Event.team_pr_update.injEq] at he
      · exact absurd he.2.2 (by simp)
      · rcases he with ⟨_, hq2, _⟩
        exact ⟨hq2 ▸ hq, hq2 ▸ hn⟩
      · exact absurd he.2.2 (by simp)
    · rintro ⟨hmem, hn⟩
      exact Or.inl (Or.inr ⟨pr, ⟨hmem, hn⟩, rfl⟩)
  · simp only [handle_team_pr_changes, List.mem_append, List.mem_map,
      List.mem_filter]
    constructor
    · rintro ((⟨q, ⟨hq, hn⟩, he⟩ | ⟨q, ⟨hq, hn⟩, he⟩) | ⟨q, hq, he⟩) <;>
        simp only [Event.team_pr_update.injEq] at he
      · exact absurd he.2.2 (by simp)
      · exact absurd he.2.2 (by simp)
      · exact he.2.1 ▸ hq
    · intro hmem
      exact Or.inr ⟨pr, hmem, rfl⟩
  · unfold should_notify_for_team_pr
    cases h1 : tsub.watch_all_prs <;>
      cases h2 : tsub.watch_assigned_prs && pr.user_is_assigned <;>
      cases h3 : tsub.watch_review_requests &&
        pr.user_is_requested_reviewer <;>
      simp [h1, h2, h3]

/-! ## Repository-loop lemmas for the failure-isolation claim. -/

/-- The repository loop leaves cache keys it never processes untouched. -/
theorem repo_phase_cache_lookup_of_not_key (tv : Bool) (f : Fetcher)
    {l : List (String × RepositorySubscription)}
    {c : List (String × PRDict)} {name : String}
    (h : ∀ e ∈ l, e.1 ≠ name) :
    dict_lookup name (repo_phase tv f c l).1 = dict_lookup name c := by
  induction l generalizing c with
  | nil => rfl
  | cons e rest ih =>
    obtain ⟨q, qsub⟩ := e
    simp only [repo_phase]
    rw [ih (fun e2 he2 => h e2 (List.mem_cons_of_mem _ he2)),
      dict_lookup_insert_ne _ _ _ _ (h (q, qsub) (by simp))]

/-- Each subscription in the repository loop is processed against the
cache entry it had at loop entry (keys are unique, as they come from a
Python dict): its events are all emitted and its cache entry is replaced
by its own fetch snapshot, independently of every other subscription. -/
theorem repo_phase_processes (tv : Bool) (f : Fetcher)
    {l : List (String × RepositorySubscription)}
    {c : List (String × PRDict)} {name : String}
    {sub : RepositorySubscription}
    (hnd : (l.map Prod.fst).Nodup) (hmem : (name, sub) ∈ l) :
    (∀ e ∈ (poll_repository tv f name sub
        ((dict_lookup name c).getD [])).2,
      e ∈ (repo_phase tv f c l).2) ∧
    dict_lookup name (repo_phase tv f c l).1 =
      some (poll_repository tv f name sub
        ((dict_lookup name c).getD [])).1 := by
  induction l generalizing c with
  | nil => simp at hmem
  | cons e rest ih =>
    obtain ⟨q, qsub⟩ := e
    simp only [List.map_cons, List.nodup_cons] at hnd
    rcases List.mem_cons.1 hmem with h | h
    · injection h with h1 h2
      subst h1
      subst h2
      simp only [repo_phase]
      constructor
      · intro ev hev
        exact List.mem_append_left _ hev
      · have hnot : ∀ e2 ∈ rest, e2.1 ≠ name := by
          intro e2 he2 heq
          exact hnd.1 (heq ▸ List.mem_map.2 ⟨e2, he2, rfl⟩)
        rw [repo_phase_cache_lookup_of_not_key tv f hnot,
          dict_lookup_insert_self]
    · have hne : q ≠ name := by
        intro heq
        exact hnd.1 (List.mem_map.2 ⟨(name, sub), h, heq.symm⟩)
      simp only [repo_phase]
      have hlk : dict_lookup name
          (dict_insert q (poll_repository tv f q qsub
            ((dict_lookup q c).getD [])).1 c) = dict_lookup name c :=
        dict_lookup_insert_ne _ _ _ _ hne
      have ih2 := ih hnd.2 h (c := dict_insert q
        (poll_repository tv f q qsub ((dict_lookup q c).getD [])).1 c)
      rw [hlk] at ih2
      exact ⟨fun ev hev => List.mem_append_right _ (ih2.1 ev hev), ih2.2⟩

theorem team_phase_cache_lookup_of_not_key (tv : Bool) (f : Fetcher)
    {l : List (String × TeamSubscription)} {c : List (String × PRDict)}
    {name : String} (h : ∀ e ∈ l, e.1 ≠ name) :
    dict_lookup name (team_phase tv f c l).1 = dict_lookup name c := by
  induction l generalizing c with
  | nil => rfl
  | cons e rest ih =>
    obtain ⟨q, qsub⟩ := e
    by_cases hen : qsub.enabled
    · have hstep : (team_phase tv f c ((q, qsub) :: rest)).1 =
          (team_phase tv f
            (dict_insert q (collect_team_prs tv f q qsub
              ((dict_lookup q c).getD [])).1 c) rest).1 := by
        simp only [team_phase, hen, Bool.not_true, Bool.false_eq_true,
          if_false]
      rw [hstep,
        ih (fun e2 he2 => h e2 (List.mem_cons_of_mem _ he2)),
        dict_lookup_insert_ne _ _ _ _ (h (q, qsub) (by simp))]
    · have hen2 : qsub.enabled = false := by
        simpa using hen
      have hstep : (team_phase tv f c ((q, qsub) :: rest)).1 =
          (team_phase tv f c rest).1 := by
        simp only [team_phase, hen2, Bool.not_false, if_true]
      rw [hstep]
      exact ih (fun e2 he2 => h e2 (List.mem_cons_of_mem _ he2))

/-- Each enabled subscription in the phase-1 team loop is processed
against the cache entry it had at loop entry (keys are unique, as they
come from a Python dict): its events are all emitted and its cache entry
is replaced by its own fetch snapshot, independently of every other
subscription. -/
theorem team_phase_processes (tv : Bool) (f : Fetcher)
    {l : List (String × TeamSubscription)} {c : List (String × PRDict)}
    {name : String} {sub : TeamSubscription}
    (hnd : (l.map Prod.fst).Nodup) (hmem : (name, sub) ∈ l)
    (hen : sub.enabled = true) :
    (∀ e ∈ (collect_team_prs tv f name sub
        ((dict_lookup name c).getD [])).2.1,
      e ∈ (team_phase tv f c l).2.1) ∧
    dict_lookup name (team_phase tv f c l).1 =
      some (collect_team_prs tv f name sub
        ((dict_lookup name c).getD [])).1 := by
  induction l generalizing c with
  | nil => simp at hmem
  | cons e rest ih =>
    obtain ⟨q, qsub⟩ := e
    simp only [List.map_cons, List.nodup_cons] at hnd
    rcases List.mem_cons.1 hmem with h | h
    · injection h with h1 h2
      subst h1
      subst h2
      have hstep1 : (team_phase tv f c ((name, sub) :: rest)).2.1 =
          (collect_team_prs tv f name sub
            ((dict_lookup name c).getD [])).2.1
            ++ (team_phase tv f (dict_insert name
              (collect_team_prs tv f name sub
                ((dict_lookup name c).getD [])).1 c) rest).2.1 := by
        simp only [team_phase, hen, Bool.not_true, Bool.false_eq_true,
          if_false]
      have hstep2 : (team_phase tv f c ((name, sub) :: rest)).1 =
          (team_phase tv f (dict_insert name
            (collect_team_prs tv f name sub
              ((dict_lookup name c).getD [])).1 c) rest).1 := by
        simp only [team_phase, hen, Bool.not_true, Bool.false_eq_true,
          if_false]
      constructor
      · intro ev hev
        rw [hstep1]
        exact List.mem_append_left _ hev
      · have hnot : ∀ e2 ∈ rest, e2.1 ≠ name := by
          intro e2 he2 heq
          exact hnd.1 (heq ▸ List.mem_map.2 ⟨e2, he2, rfl⟩)
        rw [hstep2, team_phase_cache_lookup_of_not_key tv f hnot,
          dict_lookup_insert_self]
    · have hne : q ≠ name := by
        intro heq
        exact hnd.1 (List.mem_map.2 ⟨(name, sub), h, heq.symm⟩)
      by_cases hqen : qsub.enabled
      · have hstep1 : (team_phase tv f c ((q, qsub) :: rest)).2.1 =
            (collect_team_prs tv f q qsub
              ((dict_lookup q c).getD [])).2.1
              ++ (team_phase tv f (dict_insert q
                (collect_team_prs tv f q qsub
                  ((dict_lookup q c).getD [])).1 c) rest).2.1 := by
          simp only [team_phase, hqen, Bool.not_true, Bool.false_eq_true,
            if_false]
        have hstep2 : (team_phase tv f c ((q, qsub) :: rest)).1 =
            (team_phase tv f (dict_insert q
              (collect_team_prs tv f q qsub
                ((dict_lookup q c).getD [])).1 c) rest).1 := by
          simp only [team_phase, hqen, Bool.not_true, Bool.false_eq_true,
            if_false]
        have hlk : dict_lookup name
            (dict_insert q (collect_team_prs tv f q qsub
              ((dict_lookup q c).getD [])).1 c) = dict_lookup name c :=
          dict_lookup_insert_ne _ _ _ _ hne
        have ih2 := ih hnd.2 h (c := dict_insert q
          (collect_team_prs tv f q qsub ((dict_lookup q c).getD [])).1 c)
        rw [hlk] at ih2
        constructor
        · intro ev hev
          rw [hstep1]
          exact List.mem_append_right _ (ih2.1 ev hev)
        · rw [hstep2]
          exact ih2.2
      · have hqen2 : qsub.enabled = false := by
          simpa using hqen
        have hstep : team_phase tv f c ((q, qsub) :: rest) =
            team_phase tv f c rest := by
          simp only [team_phase, hqen2, Bool.not_false, if_true]
        rw [hstep]
        exact ih hnd.2 h (c := c)

/-! ## Association-resolver lemmas. -/

theorem assoc_has_key_insert_self {d : List (Nat × List String)} {i : Nat}
    {k : String} (v : List String) :
    assoc_has_key (dict_insert i v d) i k ↔ k ∈ v := by
  unfold assoc_has_key
  rw [dict_lookup_insert_self]
  constructor
  · rintro ⟨ks, h1, h2⟩
    injection h1 with h1
    subst h1
    exact h2
  · intro h
    exact ⟨v, rfl, h⟩

theorem assoc_has_key_insert_ne {d : List (Nat × List String)}
    {i pid : Nat} {k : String} (v : List String) (h : i ≠ pid) :
    assoc_has_key (dict_insert pid v d) i k ↔ assoc_has_key d i k := by
  unfold assoc_has_key
  rw [dict_lookup_insert_ne _ _ _ _ (fun h2 => h h2.symm)]

theorem assoc_add_has_key {d : List (Nat × List String)} {i : Nat}
    {k : String} (pid : Nat) (k0 : String) :
    assoc_has_key (assoc_add pid k0 d) i k ↔
      assoc_has_key d i k ∨ (i = pid ∧ k = k0) := by
  unfold assoc_add
  by_cases hip : i = pid
  · subst hip
    cases hl : dict_lookup i d with
    | none =>
      rw [assoc_has_key_insert_self]
      unfold assoc_has_key
      rw [hl]
      simp
    | some ks =>
      rw [assoc_has_key_insert_self]
      unfold assoc_has_key
      rw [hl]
      by_cases hc : ks.contains k0
      · have hc2 : k0 ∈ ks := by simpa using hc
        rw [if_pos hc]
        constructor
        · intro h
          exact Or.inl ⟨ks, rfl, h⟩
        · rintro (⟨ks2, h1, h2⟩ | ⟨_, h2⟩)
          · injection h1 with h1
            subst h1
            exact h2
          · subst h2
            exact hc2
      · rw [if_neg hc]
        simp only [List.mem_append, List.mem_singleton]
        constructor
        · rintro (h | h)
          · exact Or.inl ⟨ks, rfl, h⟩
          · exact Or.inr ⟨by trivial, h⟩
        · rintro (⟨ks2, h1, h2⟩ | ⟨_, h2⟩)
          · injection h1 with h1
            subst h1
            exact Or.inl h2
          · exact Or.inr h2
  · cases hl : dict_lookup pid d with
    | none =>
      rw [assoc_has_key_insert_ne _ hip]
      simp [hip]
    | some ks =>
      rw [assoc_has_key_insert_ne _ hip]
      simp [hip]

theorem foldl_assoc_add_has_key (prs : List PullRequest) (k0 : String)
    (d : List (Nat × List String)) (i : Nat) (k : String) :
    assoc_has_key
        (prs.foldl (fun d2 pr => assoc_add pr.id k0 d2) d) i k ↔
      assoc_has_key d i k ∨ (k = k0 ∧ ∃ pr ∈ prs, pr.id = i) := by
  induction prs generalizing d with
  | nil => simp
  | cons pr rest ih =>
    simp only [List.foldl_cons]
    rw [ih, assoc_add_has_key]
    simp only [List.mem_cons]
    constructor
    · rintro ((h | ⟨h1, h2⟩) | ⟨h1, pr2, h2, h3⟩)
      · exact Or.inl h
      · exact Or.inr ⟨h2, pr, Or.inl rfl, h1.symm⟩
      · exact Or.inr ⟨h1, pr2, Or.inr h2, h3⟩
    · rintro (h | ⟨h1, pr2, h2, h3⟩)
      · exact Or.inl (Or.inl h)
      · rcases h2 with h2 | h2
        · subst h2
          exact Or.inl (Or.inr ⟨h3.symm, h1⟩)
        · exact Or.inr ⟨h1, pr2, h2, h3⟩

theorem foldl_build_assoc_has_key
    (teams : List (String × List PullRequest))
    (d : List (Nat × List String)) (i : Nat) (k : String) :
    assoc_has_key
        (teams.foldl
          (fun d2 td =>
            td.2.foldl (fun d3 pr => assoc_add pr.id td.1 d3) d2) d)
        i k ↔
      assoc_has_key d i k ∨
        ∃ prs, (k, prs) ∈ teams ∧ ∃ pr ∈ prs, pr.id = i := by
  induction teams generalizing d with
  | nil => simp
  | cons td rest ih =>
    obtain ⟨k0, prs0⟩ := td
    simp only [List.foldl_cons]
    rw [ih, foldl_assoc_add_has_key]
    simp only [List.mem_cons, Prod.mk.injEq]
    constructor
    · rintro ((h | ⟨h1, pr, h2, h3⟩) | ⟨prs, h1, pr, h2, h3⟩)
      · exact Or.inl h
      · exact Or.inr ⟨prs0, Or.inl ⟨h1, rfl⟩, pr, h2, h3⟩
      · exact Or.inr ⟨prs, Or.inr h1, pr, h2, h3⟩
    · rintro (h | ⟨prs, h1, pr, h2, h3⟩)
      · exact Or.inl (Or.inl h)
      · rcases h1 with ⟨h4, h5⟩ | h4
        · subst h4
          subst h5
          exact Or.inl (Or.inr ⟨rfl, pr, h2, h3⟩)
        · exact Or.inr ⟨prs, h4, pr, h2, h3⟩

theorem build_pr_team_associations_has_key
    (teams : List (String × List PullRequest)) (i : Nat) (k : String) :
    assoc_has_key (build_pr_team_associations teams) i k ↔
      ∃ prs, (k, prs) ∈ teams ∧ ∃ pr ∈ prs, pr.id = i := by
  unfold build_pr_team_associations
  rw [foldl_build_assoc_has_key]
  simp [assoc_has_key, dict_lookup]

theorem assoc_add_keys_nodup {d : List (Nat × List String)} (pid : Nat)
    (k0 : String) (h : (d.map Prod.fst).Nodup) :
    ((assoc_add pid k0 d).map Prod.fst).Nodup := by
  unfold assoc_add
  cases dict_lookup pid d <;> exact dict_keys_nodup_insert h

theorem build_pr_team_associations_keys_nodup
    (teams : List (String × List PullRequest)) :
    ((build_pr_team_associations teams).map Prod.fst).Nodup := by
  unfold build_pr_team_associations
  have h : ∀ (ts : List (String × List PullRequest))
      (d : List (Nat × List String)), (d.map Prod.fst).Nodup →
      ((ts.foldl
        (fun d2 td =>
          td.2.foldl (fun d3 pr => assoc_add pr.id td.1 d3) d2)
        d).map Prod.fst).Nodup := by
    intro ts
    induction ts with
    | nil => exact fun d hd => hd
    | cons td rest ih =>
      intro d hd
      simp only [List.foldl_cons]
      refine ih _ ?_
      have h2 : ∀ (prs : List PullRequest)
          (d2 : List (Nat × List String)), (d2.map Prod.fst).Nodup →
          ((prs.foldl (fun d3 pr => assoc_add pr.id td.1 d3) d2).map
            Prod.fst).Nodup := by
        intro prs
        induction prs with
        | nil => exact fun d2 hd2 => hd2
        | cons pr rest2 ih2 =>
          intro d2 hd2
          simp only [List.foldl_cons]
          exact ih2 _ (assoc_add_keys_nodup _ _ hd2)
      exact h2 _ _ hd
  exact h teams [] (by simp)

/-! ## Event-shape lemmas: no phase-1 step of the cycle writes
associations. -/

theorem get_pull_requests_rest_events {tv : Bool} {f : Fetcher}
    {n : String} {ev : Event}
    (h : ev ∈ (get_pull_requests_rest tv f n).2) :
    ev = Event.fetch_error n := by
  cases tv with
  | false => simpa [get_pull_requests_rest] using h
  | true =>
    cases hf : f n with
    | ok prs => simp [get_pull_requests_rest, hf] at h
    | error e => simpa [get_pull_requests_rest, hf] using h

theorem get_team_pull_requests_rest_events {tv : Bool} {f : Fetcher}
    {n : String} {ev : Event}
    (h : ev ∈ (get_team_pull_requests_rest tv f n).2) :
    ev = Event.fetch_error n := by
  cases tv with
  | false => simpa [get_team_pull_requests_rest] using h
  | true =>
    cases hf : f n with
    | ok prs => simp [get_team_pull_requests_rest, hf] at h
    | error e => simpa [get_team_pull_requests_rest, hf] using h

theorem mem_handle_pr_changes_shape {repo : String}
    {sub : RepositorySubscription} {n u c : List PullRequest} {ev : Event}
    (h : ev ∈ handle_pr_changes repo sub n u c) :
    ∃ pr kind, ev = Event.pr_update repo pr kind := by
  simp only [handle_pr_changes, List.mem_append, List.mem_map,
    List.mem_filter] at h
  rcases h with ((⟨q, _, he⟩ | ⟨q, _, he⟩) | ⟨q, _, he⟩) <;>
    exact ⟨q, _, he.symm⟩

theorem mem_handle_team_pr_changes_shape {team_key : String}
    {sub : TeamSubscription} {n u c : List PullRequest} {ev : Event}
    (h : ev ∈ handle_team_pr_changes team_key sub n u c) :
    ∃ pr kind, ev = Event.team_pr_update team_key pr kind := by
  simp only [handle_team_pr_changes, List.mem_append, List.mem_map,
    List.mem_filter] at h
  rcases h with ((⟨q, _, he⟩ | ⟨q, _, he⟩) | ⟨q, _, he⟩) <;>
    exact ⟨q, _, he.symm⟩

theorem poll_repository_no_assoc {tv : Bool} {f : Fetcher} {name : String}
    {sub : RepositorySubscription} {ce : PRDict} {ev : Event}
    (h : ev ∈ (poll_repository tv f name sub ce).2) (i : Nat)
    (ks : List String) : ev ≠ Event.update_pr_team_associations i ks := by
  intro heq
  subst heq
  simp only [poll_repository, List.append_assoc, List.mem_append] at h
  rcases h with h | h | h | h | h
  · exact Event.noConfusion (get_pull_requests_rest_events h)
  · simp at h
  · rcases mem_handle_pr_changes_shape h with ⟨pr, kind, he⟩
    exact Event.noConfusion he
  · simp at h
  · simp at h

theorem collect_team_prs_no_assoc {tv : Bool} {f : Fetcher}
    {team_key : String} {sub : TeamSubscription} {ce : PRDict} {ev : Event}
    (h : ev ∈ (collect_team_prs tv f team_key sub ce).2.1) (i : Nat)
    (ks : List String) : ev ≠ Event.update_pr_team_associations i ks := by
  intro heq
  subst heq
  simp only [collect_team_prs, List.append_assoc, List.mem_append] at h
  rcases h with h | h | h | h
  · exact Event.noConfusion (get_team_pull_requests_rest_events h)
  · simp at h
  · rcases mem_handle_team_pr_changes_shape h with ⟨pr, kind, he⟩
    exact Event.noConfusion he
  · simp at h

theorem repo_phase_no_assoc {tv : Bool} {f : Fetcher}
    {l : List (String × RepositorySubscription)}
    {c : List (String × PRDict)} {ev : Event}
    (h : ev ∈ (repo_phase tv f c l).2) (i : Nat) (ks : List String) :
    ev ≠ Event.update_pr_team_associations i ks := by
  induction l generalizing c with
  | nil => simp [repo_phase] at h
  | cons e rest ih =>
    obtain ⟨q, qsub⟩ := e
    simp only [repo_phase, List.mem_append] at h
    rcases h with h | h
    · exact poll_repository_no_assoc h i ks
    · exact ih h

theorem team_phase_no_assoc {tv : Bool} {f : Fetcher}
    {l : List (String × TeamSubscription)} {c : List (String × PRDict)}
    {ev : Event} (h : ev ∈ (team_phase tv f c l).2.1) (i : Nat)
    (ks : List String) :
    ev ≠ Event.update_pr_team_associations i ks := by
  induction l generalizing c with
  | nil => simp [team_phase] at h
  | cons e rest ih =>
    obtain ⟨q, qsub⟩ := e
    by_cases hen : qsub.enabled
    · simp only [team_phase, hen] at h
      simp only [Bool.not_true, Bool.false_eq_true, if_false,
        List.mem_append] at h
      rcases h with h | h
      · exact collect_team_prs_no_assoc h i ks
      · exact ih h
    · have hen2 : qsub.enabled = false := by
        simpa using hen
      simp only [team_phase, hen2, Bool.not_false, if_true] at h
      exact ih h

/-- Phase 1 hands phase 2 exactly the enabled teams, each paired with its
fetch result of this cycle. -/
theorem team_phase_collected (tv : Bool) (f : Fetcher)
    (l : List (String × TeamSubscription)) (c : List (String × PRDict)) :
    (team_phase tv f c l).2.2 =
      (l.filter (fun e => e.2.enabled)).map
        (fun e => (e.1, (get_team_pull_requests_rest tv f e.1).1)) := by
  induction l generalizing c with
  | nil => simp [team_phase]
  | cons e rest ih =>
    obtain ⟨q, qsub⟩ := e
    by_cases hen : qsub.enabled
    · simp only [team_phase, hen, Bool.not_true, Bool.false_eq_true,
        if_false]
      rw [ih, List.filter_cons_of_pos (by simpa using hen),
        List.map_cons]
      rfl
    · have hen2 : qsub.enabled = false := by
        simpa using hen
      simp only [team_phase, hen2, Bool.not_false, if_true]
      rw [ih, List.filter_cons_of_neg (by simpa using hen)]

/-! ## GraphQL-path lemmas. -/

theorem mem_foldl_dict_insert {α β : Type} [DecidableEq α] (f : β → α) :
    ∀ {xs : List β} {d : List (α × β)} {e : α × β},
    e ∈ xs.foldl (fun d x => dict_insert (f x) x d) d →
    e ∈ d ∨ ∃ x ∈ xs, e = (f x, x) := by
  intro xs
  induction xs with
  | nil => exact fun h => Or.inl h
  | cons x rest ih =>
    intro d e h
    simp only [List.foldl_cons] at h
    rcases ih h with h2 | h2
    · rcases mem_dict_insert h2 with h3 | h3
      · exact Or.inr ⟨x, by simp, h3⟩
      · exact Or.inl h3
    · rcases h2 with ⟨y, hy, he⟩
      exact Or.inr ⟨y, List.mem_cons_of_mem _ hy, he⟩

/-- Every record the V2 team fetch returns is the conversion of one of
the raw nodes (the dedup keeps only converted records). -/
theorem mem_get_team_pull_requests_v2 {raws : List RawGraphQLPR}
    {pr : PullRequest} (h : pr ∈ get_team_pull_requests_v2 raws) :
    ∃ raw ∈ raws, pr = convert_graphql_pr raw := by
  unfold get_team_pull_requests_v2 at h
  rcases List.mem_map.1 h with ⟨e, he, hpr⟩
  rcases mem_foldl_dict_insert
      (fun pr : PullRequest =>
        pr.repository_full_name ++ "#" ++ toString pr.number) he with
    h2 | h2
  · simp at h2
  · rcases h2 with ⟨x, hx, hex⟩
    rcases List.mem_map.1 hx with ⟨raw, hraw, hconv⟩
    refine ⟨raw, hraw, ?_⟩
    rw [← hpr, hex, hconv]

/-- `_convert_graphql_pr` hard-codes the three user-relative flags to
false. -/
theorem convert_graphql_pr_flags (raw : RawGraphQLPR) :
    (convert_graphql_pr raw).user_is_assigned = false ∧
      (convert_graphql_pr raw).user_is_requested_reviewer = false ∧
      (convert_graphql_pr raw).user_has_reviewed = false := by
  simp [convert_graphql_pr]

theorem diff_new_subset {current : List PullRequest} {previous : PRDict}
    {pr : PullRequest} (h : pr ∈ diff_new current previous) :
    pr ∈ current :=
  (List.mem_filter.1 h).1

theorem diff_updated_subset {current : List PullRequest}
    {previous : PRDict} {pr : PullRequest}
    (h : pr ∈ diff_updated current previous) : pr ∈ current :=
  (List.mem_filter.1 h).1

theorem mem_handle_team_pr_changes_cases {team_key : String}
    {sub : TeamSubscription} {n u c : List PullRequest} {ev : Event}
    (h : ev ∈ handle_team_pr_changes team_key sub n u c) :
    (∃ pr ∈ n, ev = Event.team_pr_update team_key pr ChangeKind.new_pr) ∨
    (∃ pr ∈ u, ev = Event.team_pr_update team_key pr ChangeKind.updated) ∨
    (∃ pr ∈ c, ev = Event.team_pr_update team_key pr ChangeKind.closed) := by
  simp only [handle_team_pr_changes, List.mem_append, List.mem_map,
    List.mem_filter] at h
  rcases h with ((⟨q, hq, he⟩ | ⟨q, hq, he⟩) | ⟨q, hq, he⟩)
  · exact Or.inl ⟨q, hq.1, he.symm⟩
  · exact Or.inr (Or.inl ⟨q, hq.1, he.symm⟩)
  · exact Or.inr (Or.inr ⟨q, hq, he.symm⟩)

theorem count_assigned_eq_zero {prs : List PullRequest}
    (h : ∀ pr ∈ prs, pr.user_is_assigned = false) :
    count_assigned prs = 0 := by
  unfold count_assigned
  rw [List.filter_eq_nil_iff.2 (by simpa using h)]
  rfl

theorem count_review_requests_eq_zero {prs : List PullRequest}
    (h : ∀ pr ∈ prs, pr.user_is_requested_reviewer = false) :
    count_review_requests prs = 0 := by
  unfold count_review_requests
  rw [List.filter_eq_nil_iff.2 (by simpa using h)]
  rfl

/-- In the GraphQL team loop, every non-closed team broadcast carries a
record straight from the fetch result, and team stats are computed from
the fetch result. -/
theorem graphql_team_phase_flags {ts : Bool} {f : Fetcher}
    {l : List (String × TeamSubscription)} {c : List (String × PRDict)}
    (hconv : ∀ k prs, f k = Except.ok prs → ∀ pr ∈ prs,
      pr.user_is_assigned = false ∧
        pr.user_is_requested_reviewer = false ∧
        pr.user_has_reviewed = false) :
    (∀ key pr kind,
      Event.team_pr_update key pr kind ∈
        (graphql_team_phase ts f c l).2 →
      kind ≠ ChangeKind.closed →
      pr.user_is_assigned = false ∧
        pr.user_is_requested_reviewer = false ∧
        pr.user_has_reviewed = false) ∧
    (∀ key total assigned reqs,
      Event.team_stats key total assigned reqs ∈
        (graphql_team_phase ts f c l).2 →
      assigned = 0 ∧ reqs = 0) := by
  induction l generalizing c with
  | nil =>
    constructor
    · intro key pr kind h
      simp [graphql_team_phase] at h
    · intro key t a r h
      simp [graphql_team_phase] at h
  | cons e rest ih =>
    obtain ⟨team_key, tsub⟩ := e
    by_cases hen : tsub.enabled
    · cases hsc : (if ts = false then (Except.error () :
          Except Unit (List PullRequest)) else f team_key) with
      | error err =>
        have hstep : (graphql_team_phase ts f c ((team_key, tsub) :: rest)).2 =
            Event.fetch_error team_key ::
              (graphql_team_phase ts f c rest).2 := by
          simp [graphql_team_phase, hen, hsc]
        constructor
        · intro key pr kind h hkind
          rw [hstep] at h
          rcases List.mem_cons.1 h with h2 | h2
          · exact Event.noConfusion h2
          · exact (ih (c := c)).1 key pr kind h2 hkind
        · intro key t a r h
          rw [hstep] at h
          rcases List.mem_cons.1 h with h2 | h2
          · exact Event.noConfusion h2
          · exact (ih (c := c)).2 key t a r h2
      | ok prs =>
        have hf : f team_key = Except.ok prs := by
          cases ts with
          | false => simp at hsc
          | true => simpa using hsc
        have hflags := hconv team_key prs hf
        have hstep :
            (graphql_team_phase ts f c ((team_key, tsub) :: rest)).2 =
            ([Event.upsert_prs_graphql team_key prs]
              ++ handle_team_pr_changes team_key tsub
                  (diff_new prs ((dict_lookup team_key c).getD []))
                  (diff_updated prs ((dict_lookup team_key c).getD []))
                  (diff_closed prs ((dict_lookup team_key c).getD []))
              ++ [Event.team_stats team_key prs.length
                    (count_assigned prs) (count_review_requests prs)])
              ++ (graphql_team_phase ts f
                  (dict_insert team_key (snapshot_of prs) c) rest).2 := by
          simp [graphql_team_phase, hen, hsc]
        constructor
        · intro key pr kind h hkind
          rw [hstep] at h
          rcases List.mem_append.1 h with h2 | h2
          · simp only [List.append_assoc, List.mem_append,
              List.mem_singleton] at h2
            rcases h2 with h3 | h3 | h3
            · exact Event.noConfusion h3
            · rcases mem_handle_team_pr_changes_cases h3 with
                ⟨q, hq, he⟩ | ⟨q, hq, he⟩ | ⟨q, hq, he⟩
              · injection he with e1 e2 e3
                subst e2
                exact hflags pr (diff_new_subset hq)
              · injection he with e1 e2 e3
                subst e2
                exact hflags pr (diff_updated_subset hq)
              · injection he with e1 e2 e3
                exact absurd e3 hkind
            · exact Event.noConfusion h3
          · exact (ih (c := dict_insert team_key (snapshot_of prs) c)).1
              key pr kind h2 hkind
        · intro key t a r h
          rw [hstep] at h
          rcases List.mem_append.1 h with h2 | h2
          · simp only [List.append_assoc, List.mem_append,
              List.mem_singleton] at h2
            rcases h2 with h3 | h3 | h3
            · exact Event.noConfusion h3
            · rcases mem_handle_team_pr_changes_cases h3 with
                ⟨q, hq, he⟩ | ⟨q, hq, he⟩ | ⟨q, hq, he⟩ <;>
                exact Event.noConfusion he
            · injection h3 with e1 e2 e3 e4
              subst e3
              subst e4
              exact ⟨count_assigned_eq_zero
                  (fun pr hpr => (hflags pr hpr).1),
                count_review_requests_eq_zero
                  (fun pr hpr => (hflags pr hpr).2.1)⟩
          · exact (ih (c := dict_insert team_key (snapshot_of prs) c)).2
              key t a r h2
    · have hen2 : tsub.enabled = false := by simpa using hen
      have hstep : graphql_team_phase ts f c ((team_key, tsub) :: rest) =
          graphql_team_phase ts f c rest := by
        simp [graphql_team_phase, hen2]
      rw [hstep]
      exact ih (c := c)

/-- Every event a GraphQL poll cycle emits comes from its team loop or is
the `AttributeError` escaping its repository loop. -/
theorem poll_repositories_graphql_events {f : Fetcher}
    {s : SchedulerState} {ev : Event}
    (hev : ev ∈ (poll_repositories_graphql f s).2) :
    ev ∈ (graphql_team_phase s.token_set f s.team_pr_cache
        s.subscribed_teams).2 ∨ ev = Event.attribute_error := by
  rw [poll_repositories_graphql] at hev
  by_cases hempty : (s.subscribed_repositories.isEmpty &&
      s.subscribed_teams.isEmpty) = true
  · simp [hempty] at hev
  · simp only [hempty, Bool.false_eq_true, if_false] at hev
    have hev2 : ev ∈ (graphql_team_phase s.token_set f s.team_pr_cache
        s.subscribed_teams).2
        ++ (if s.subscribed_repositories.isEmpty then []
            else [Event.attribute_error]) := hev
    rcases List.mem_append.1 hev2 with h | h
    · exact Or.inl h
    · by_cases hre : s.subscribed_repositories.isEmpty = true
      · rw [if_pos hre] at h
        simp at h
      · rw [if_neg hre] at h
        exact Or.inr (List.mem_singleton.1 h)

/-- C10: `_convert_graphql_pr` hard-codes `user_is_assigned`,
`user_is_requested_reviewer` and `user_has_reviewed` to false (despite the
"Will be set by the scheduler" comments, no later step of the GraphQL
polling path writes them): every record of the V2 team fetch carries all
three flags false, the notification policy on such records collapses to
the subscription's `watch_all_prs` flag, and in a GraphQL poll cycle whose
team fetches return such records, every new/updated team broadcast carries
the cleared flags and every team-stats update reports zero assigned-to-user
and zero review-request PRs. -/
theorem c10_graphql_records_have_no_user_flags (raw : RawGraphQLPR)
    (raws : List RawGraphQLPR) (sub : TeamSubscription)
    (fetch_team : Fetcher) (s : SchedulerState)
    (hteam : ∀ k prs, fetch_team k = Except.ok prs →
      ∃ rs : List RawGraphQLPR, prs = rs.map convert_graphql_pr) :
    ((convert_graphql_pr raw).user_is_assigned = false ∧
      (convert_graphql_pr raw).user_is_requested_reviewer = false ∧
      (convert_graphql_pr raw).user_has_reviewed = false) ∧
    (∀ pr ∈ get_team_pull_requests_v2 raws,
      pr.user_is_assigned = false ∧
        pr.user_is_requested_reviewer = false ∧
        pr.user_has_reviewed = false) ∧
    (∀ pr ∈ get_team_pull_requests_v2 raws,
      should_notify_for_team_pr pr sub = sub.watch_all_prs) ∧
    (∀ key pr kind, Event.team_pr_update key pr kind ∈
        (poll_repositories_graphql fetch_team s).2 →
      kind ≠ ChangeKind.closed →
      pr.user_is_assigned = false ∧
        pr.user_is_requested_reviewer = false ∧
        pr.user_has_reviewed = false) ∧
    (∀ key total assigned reqs,
      Event.team_stats key total assigned reqs ∈
        (poll_repositories_graphql fetch_team s).2 →
      assigned = 0 ∧ reqs = 0) := by
  have hconv : ∀ k prs, fetch_team k = Except.ok prs → ∀ pr ∈ prs,
      pr.user_is_assigned = false ∧
        pr.user_is_requested_reviewer = false ∧
        pr.user_has_reviewed = false := by
    intro k prs hk pr hpr
    rcases hteam k prs hk with ⟨rs, hrs⟩
    subst hrs
    rcases List.mem_map.1 hpr with ⟨r2, _, hr2⟩
    rw [← hr2]
    exact convert_graphql_pr_flags r2
  have hv2 : ∀ pr ∈ get_team_pull_requests_v2 raws,
      pr.user_is_assigned = false ∧
        pr.user_is_requested_reviewer = false ∧
        pr.user_has_reviewed = false := by
    intro pr hpr
    rcases mem_get_team_pull_requests_v2 hpr with ⟨r2, _, hr2⟩
    rw [hr2]
    exact convert_graphql_pr_flags r2
  refine ⟨convert_graphql_pr_flags raw, hv2, ?_, ?_, ?_⟩
  · intro pr hpr
    rcases hv2 pr hpr with ⟨h1, h2, _⟩
    unfold should_notify_for_team_pr
    rw [h1, h2]
    cases sub.watch_all_prs <;> simp
  · intro key pr kind hev hkind
    rcases poll_repositories_graphql_events hev with h | h
    · exact (graphql_team_phase_flags hconv).1 key pr kind h hkind
    · exact Event.noConfusion h
  · intro key total assigned reqs hev
    rcases poll_repositories_graphql_events hev with h | h
    · exact (graphql_team_phase_flags hconv).2 key total assigned reqs h
    · exact Event.noConfusion h

/-- Witness for `c10_graphql_records_have_no_user_flags`: a GraphQL cycle
over `c7_state` whose team fetches return the converted `c10_raw`. -/
theorem c10_graphql_records_have_no_user_flags_witness :
    (∀ k prs, c10_fetch k = Except.ok prs →
      ∃ rs : List RawGraphQLPR, prs = rs.map convert_graphql_pr) ∧
    (((convert_graphql_pr c10_raw).user_is_assigned = false ∧
      (convert_graphql_pr c10_raw).user_is_requested_reviewer = false ∧
      (convert_graphql_pr c10_raw).user_has_reviewed = false) ∧
    (∀ pr ∈ get_team_pull_requests_v2 [c10_raw],
      pr.user_is_assigned = false ∧
        pr.user_is_requested_reviewer = false ∧
        pr.user_has_reviewed = false) ∧
    (∀ pr ∈ get_team_pull_requests_v2 [c10_raw],
      should_notify_for_team_pr pr platform_subscription =
        platform_subscription.watch_all_prs) ∧
    (∀ key pr kind, Event.team_pr_update key pr kind ∈
        (poll_repositories_graphql c10_fetch c7_state).2 →
      kind ≠ ChangeKind.closed →
      pr.user_is_assigned = false ∧
        pr.user_is_requested_reviewer = false ∧
        pr.user_has_reviewed = false) ∧
    (∀ key total assigned reqs,
      Event.team_stats key total assigned reqs ∈
        (poll_repositories_graphql c10_fetch c7_state).2 →
      assigned = 0 ∧ reqs = 0)) :=
  ⟨fun _ prs h => ⟨[c10_raw], by injection h with h2; exact h2.symm⟩,
    c10_graphql_records_have_no_user_flags c10_raw [c10_raw]
      platform_subscription c10_fetch c7_state
      (fun _ prs h => ⟨[c10_raw], by injection h with h2; exact h2.symm⟩)⟩

/-- Membership characterization of the phase-1 hand-off list. -/
theorem mem_team_phase_collected {tv : Bool} {f : Fetcher}
    {l : List (String × TeamSubscription)} {c : List (String × PRDict)}
    {k : String} {prs : List PullRequest} :
    (k, prs) ∈ (team_phase tv f c l).2.2 ↔
      ∃ tsub, (k, tsub) ∈ l ∧ tsub.enabled = true ∧
        prs = (get_team_pull_requests_rest tv f k).1 := by
  rw [team_phase_collected]
  simp only [List.mem_map, List.mem_filter, Prod.mk.injEq]
  constructor
  · rintro ⟨⟨k2, tsub⟩, ⟨hmem, hen⟩, h1, h2⟩
    subst h1
    exact ⟨tsub, hmem, hen, h2.symm⟩
  · rintro ⟨tsub, hmem, hen, hprs⟩
    exact ⟨(k, tsub), ⟨hmem, hen⟩, rfl, hprs.symm⟩

/-- C7: in a REST reconciliation cycle the per-PR team-association writes
form one final batch — the cycle's event trace splits into a phase that
contains no association write (all fetching, diffing, record persistence
and broadcasting) followed by a phase of only association writes; each
write's key set contains team key `k` iff `k` is an enabled subscribed
team whose fetch result this cycle contained a record with the written PR
id (the union over the cycle); and there is at most one association write
per PR id, so a PR surfaced by two teams in one cycle is never persisted
with only one of the two keys. -/
theorem c7_associations_one_batch_with_union
    (fetch_repo fetch_team : Fetcher) (s : SchedulerState) :
    (∃ phase1 phase2,
      (poll_repositories fetch_repo fetch_team s).2 = phase1 ++ phase2 ∧
      (∀ ev ∈ phase1, ∀ i ks,
        ev ≠ Event.update_pr_team_associations i ks) ∧
      (∀ ev ∈ phase2, ∃ i ks,
        ev = Event.update_pr_team_associations i ks)) ∧
    (∀ i ks, Event.update_pr_team_associations i ks ∈
        (poll_repositories fetch_repo fetch_team s).2 →
      ∀ k, k ∈ ks ↔ ∃ tsub, (k, tsub) ∈ s.subscribed_teams ∧
        tsub.enabled = true ∧
        ∃ pr ∈ (get_team_pull_requests_rest s.is_token_valid fetch_team
          k).1, pr.id = i) ∧
    (∀ i ks ks2,
      Event.update_pr_team_associations i ks ∈
        (poll_repositories fetch_repo fetch_team s).2 →
      Event.update_pr_team_associations i ks2 ∈
        (poll_repositories fetch_repo fetch_team s).2 →
      ks = ks2) := by
  by_cases htok : s.is_token_valid = true
  case neg =>
    have h0 : s.is_token_valid = false := by
      simpa using htok
    have hevs : (poll_repositories fetch_repo fetch_team s).2 = [] := by
      simp [poll_repositories, h0]
    refine ⟨⟨[], [], by simp [hevs], by simp, by simp⟩, ?_, ?_⟩
    · intro i ks hmem
      rw [hevs] at hmem
      simp at hmem
    · intro i ks ks2 hmem
      rw [hevs] at hmem
      simp at hmem
  case pos =>
    by_cases hempty : (s.subscribed_repositories.isEmpty &&
        s.subscribed_teams.isEmpty) = true
    · have hevs : (poll_repositories fetch_repo fetch_team s).2 = [] := by
        simp only [poll_repositories, htok, Bool.not_true,
          Bool.false_eq_true, if_false]
        simp [hempty]
      refine ⟨⟨[], [], by simp [hevs], by simp, by simp⟩, ?_, ?_⟩
      · intro i ks hmem
        rw [hevs] at hmem
        simp at hmem
      · intro i ks ks2 hmem
        rw [hevs] at hmem
        simp at hmem
    · have hevs : (poll_repositories fetch_repo fetch_team s).2 =
          ((repo_phase s.is_token_valid fetch_repo s.pr_cache
              s.subscribed_repositories).2
            ++ (team_phase s.is_token_valid fetch_team s.team_pr_cache
                s.subscribed_teams).2.1)
          ++ update_all_team_associations_events
              (team_phase s.is_token_valid fetch_team s.team_pr_cache
                s.subscribed_teams).2.2 := by
        rw [poll_repositories]
        simp only [htok, Bool.not_true, Bool.false_eq_true, if_false,
          hempty, List.append_assoc]
      have hmem_assoc : ∀ i ks,
          Event.update_pr_team_associations i ks ∈
            (poll_repositories fetch_repo fetch_team s).2 →
          (i, ks) ∈ build_pr_team_associations
            (team_phase s.is_token_valid fetch_team s.team_pr_cache
              s.subscribed_teams).2.2 := by
        intro i ks hmem
        rw [hevs] at hmem
        rcases List.mem_append.1 hmem with h | h
        · rcases List.mem_append.1 h with h2 | h2
          · exact absurd rfl (repo_phase_no_assoc h2 i ks)
          · exact absurd rfl (team_phase_no_assoc h2 i ks)
        · rcases List.mem_map.1 h with ⟨⟨i2, ks2⟩, hmem2, heq⟩
          injection heq with h3 h4
          subst h3
          subst h4
          exact hmem2
      have hlk_of_mem : ∀ i ks,
          (i, ks) ∈ build_pr_team_associations
            (team_phase s.is_token_valid fetch_team s.team_pr_cache
              s.subscribed_teams).2.2 →
          dict_lookup i (build_pr_team_associations
            (team_phase s.is_token_valid fetch_team s.team_pr_cache
              s.subscribed_teams).2.2) = some ks :=
        fun i ks h =>
          dict_lookup_of_mem_nodup
            (build_pr_team_associations_keys_nodup _) h
      refine ⟨?_, ?_, ?_⟩
      · refine ⟨(repo_phase s.is_token_valid fetch_repo s.pr_cache
            s.subscribed_repositories).2
          ++ (team_phase s.is_token_valid fetch_team s.team_pr_cache
              s.subscribed_teams).2.1,
          update_all_team_associations_events
            (team_phase s.is_token_valid fetch_team s.team_pr_cache
              s.subscribed_teams).2.2, hevs, ?_, ?_⟩
        · intro ev hev i ks
          rcases List.mem_append.1 hev with h | h
          · exact repo_phase_no_assoc h i ks
          · exact team_phase_no_assoc h i ks
        · intro ev hev
          rcases List.mem_map.1 hev with ⟨⟨i2, ks2⟩, _, heq⟩
          exact ⟨i2, ks2, heq.symm⟩
      · intro i ks hmem k
        have hbuild := hmem_assoc i ks hmem
        have hlk := hlk_of_mem i ks hbuild
        have hhk : k ∈ ks ↔ assoc_has_key
            (build_pr_team_associations
              (team_phase s.is_token_valid fetch_team s.team_pr_cache
                s.subscribed_teams).2.2) i k := by
          unfold assoc_has_key
          constructor
          · intro h
            exact ⟨ks, hlk, h⟩
          · rintro ⟨ks2, hlk2, hk⟩
            rw [hlk] at hlk2
            injection hlk2 with h5
            subst h5
            exact hk
        rw [hhk, build_pr_team_associations_has_key]
        constructor
        · rintro ⟨prs, hmem2, pr, hpr, hid⟩
          rcases mem_team_phase_collected.1 hmem2 with
            ⟨tsub, hmem3, hen, hprs⟩
          subst hprs
          exact ⟨tsub, hmem3, hen, pr, hpr, hid⟩
        · rintro ⟨tsub, hmem3, hen, pr, hpr, hid⟩
          exact ⟨_, mem_team_phase_collected.2 ⟨tsub, hmem3, hen, rfl⟩,
            pr, hpr, hid⟩
      · intro i ks ks2 hmem hmem2
        have h1 := hlk_of_mem i ks (hmem_assoc i ks hmem)
        have h2 := hlk_of_mem i ks2 (hmem_assoc i ks2 hmem2)
        rw [h1] at h2
        exact Option.some.inj h2

/-- Witness for `c7_associations_one_batch_with_union`: two team
subscriptions surface the same PR (id 100) in one cycle; the single
association write for it carries both team keys, and the union
characterization holds at the platform key. -/
theorem c7_associations_one_batch_with_union_witness :
    (Event.update_pr_team_associations 100
        [platform_team_key, mobile_team_key] ∈
      (poll_repositories failing_fetch c7_fetch c7_state).2) ∧
    (platform_team_key ∈ [platform_team_key, mobile_team_key] ↔
      ∃ tsub, (platform_team_key, tsub) ∈ c7_state.subscribed_teams ∧
        tsub.enabled = true ∧
        ∃ pr ∈ (get_team_pull_requests_rest c7_state.is_token_valid
          c7_fetch platform_team_key).1, pr.id = 100) :=
  ⟨by decide,
    (c7_associations_one_batch_with_union failing_fetch c7_fetch
        c7_state).2.1 100 [platform_team_key, mobile_team_key]
      (by decide) platform_team_key⟩

/-- C8: a fetch failure for one subscription in a REST cycle — of either
kind, repository or team — is swallowed and logged, and every other
subscription in the same cycle is still fetched, diffed, persisted,
broadcast, and has its cache entry replaced.  Given repository
subscriptions A (whose fetch raises) and B (whose fetch returns `prsB`)
and enabled team subscriptions A2 (whose fetch raises) and B2 (whose
fetch returns `prsB2`), the cycle's event list contains A's and A2's
logged fetch errors, B's and B2's persistence upserts, every broadcast
B's and B2's diffs produce, and B2's team-stats update, and the new
caches map B to the snapshot of `prsB` and B2 to the snapshot of
`prsB2`. -/
theorem c8_fetch_failure_isolated (fetch_repo fetch_team : Fetcher)
    (s : SchedulerState) (a b a2 b2 : String)
    (asub bsub : RepositorySubscription)
    (asub2 bsub2 : TeamSubscription)
    (prsB prsB2 : List PullRequest)
    (htoken : s.is_token_valid = true)
    (hnd : (s.subscribed_repositories.map Prod.fst).Nodup)
    (hA : (a, asub) ∈ s.subscribed_repositories)
    (hfail : fetch_repo a = Except.error ())
    (hB : (b, bsub) ∈ s.subscribed_repositories)
    (hok : fetch_repo b = Except.ok prsB)
    (hndT : (s.subscribed_teams.map Prod.fst).Nodup)
    (hA2 : (a2, asub2) ∈ s.subscribed_teams)
    (henA2 : asub2.enabled = true)
    (hfailA2 : fetch_team a2 = Except.error ())
    (hB2 : (b2, bsub2) ∈ s.subscribed_teams)
    (henB2 : bsub2.enabled = true)
    (hokB2 : fetch_team b2 = Except.ok prsB2) :
    Event.fetch_error a ∈
      (poll_repositories fetch_repo fetch_team s).2 ∧
    Event.upsert_prs (some b) prsB ∈
      (poll_repositories fetch_repo fetch_team s).2 ∧
    (∀ ev ∈ handle_pr_changes b bsub
        (diff_new prsB ((dict_lookup b s.pr_cache).getD []))
        (diff_updated prsB ((dict_lookup b s.pr_cache).getD []))
        (diff_closed prsB ((dict_lookup b s.pr_cache).getD [])),
      ev ∈ (poll_repositories fetch_repo fetch_team s).2) ∧
    dict_lookup b
        (poll_repositories fetch_repo fetch_team s).1.pr_cache =
      some (snapshot_of prsB) ∧
    Event.fetch_error a2 ∈
      (poll_repositories fetch_repo fetch_team s).2 ∧
    Event.upsert_prs none prsB2 ∈
      (poll_repositories fetch_repo fetch_team s).2 ∧
    (∀ ev ∈ handle_team_pr_changes b2 bsub2
        (diff_new prsB2 ((dict_lookup b2 s.team_pr_cache).getD []))
        (diff_updated prsB2 ((dict_lookup b2 s.team_pr_cache).getD []))
        (diff_closed prsB2 ((dict_lookup b2 s.team_pr_cache).getD [])),
      ev ∈ (poll_repositories fetch_repo fetch_team s).2) ∧
    Event.team_stats b2 prsB2.length (count_assigned prsB2)
        (count_review_requests prsB2) ∈
      (poll_repositories fetch_repo fetch_team s).2 ∧
    dict_lookup b2
        (poll_repositories fetch_repo fetch_team s).1.team_pr_cache =
      some (snapshot_of prsB2) := by
  have hne : s.subscribed_repositories.isEmpty = false := by
    cases hl : s.subscribed_repositories with
    | nil => rw [hl] at hB; simp at hB
    | cons e rest => simp [List.isEmpty]
  have hunfold : poll_repositories fetch_repo fetch_team s =
      ({ s with
          pr_cache := (repo_phase s.is_token_valid fetch_repo s.pr_cache
            s.subscribed_repositories).1,
          team_pr_cache := (team_phase s.is_token_valid fetch_team
            s.team_pr_cache s.subscribed_teams).1 },
        (repo_phase s.is_token_valid fetch_repo s.pr_cache
            s.subscribed_repositories).2
          ++ (team_phase s.is_token_valid fetch_team s.team_pr_cache
              s.subscribed_teams).2.1
          ++ update_all_team_associations_events
              (team_phase s.is_token_valid fetch_team s.team_pr_cache
                s.subscribed_teams).2.2) := by
    rw [poll_repositories]
    simp [htoken, hne]
  have hBproc := repo_phase_processes s.is_token_valid fetch_repo
    (c := s.pr_cache) hnd hB
  have hAproc := repo_phase_processes s.is_token_valid fetch_repo
    (c := s.pr_cache) hnd hA
  have hBpoll : poll_repository s.is_token_valid fetch_repo b bsub
      ((dict_lookup b s.pr_cache).getD []) =
      (snapshot_of prsB,
        [Event.upsert_prs (some b) prsB]
          ++ handle_pr_changes b bsub
              (diff_new prsB ((dict_lookup b s.pr_cache).getD []))
              (diff_updated prsB ((dict_lookup b s.pr_cache).getD []))
              (diff_closed prsB ((dict_lookup b s.pr_cache).getD []))
          ++ [Event.repository_stats b prsB.length (count_assigned prsB)
              (count_review_requests prsB) (count_needs_review prsB)]
          ++ [Event.repository_stats_db b prsB.length
              (count_assigned prsB) (count_review_requests prsB)]) := by
    simp [poll_repository, get_pull_requests_rest, htoken, hok]
  have hApoll : Event.fetch_error a ∈
      (poll_repository s.is_token_valid fetch_repo a asub
        ((dict_lookup a s.pr_cache).getD [])).2 := by
    simp [poll_repository, get_pull_requests_rest, htoken, hfail]
  have hB2proc := team_phase_processes s.is_token_valid fetch_team
    (c := s.team_pr_cache) hndT hB2 henB2
  have hA2proc := team_phase_processes s.is_token_valid fetch_team
    (c := s.team_pr_cache) hndT hA2 henA2
  have hB2coll : collect_team_prs s.is_token_valid fetch_team b2 bsub2
      ((dict_lookup b2 s.team_pr_cache).getD []) =
      (snapshot_of prsB2,
        [Event.upsert_prs none prsB2]
          ++ handle_team_pr_changes b2 bsub2
              (diff_new prsB2 ((dict_lookup b2 s.team_pr_cache).getD []))
              (diff_updated prsB2
                ((dict_lookup b2 s.team_pr_cache).getD []))
              (diff_closed prsB2
                ((dict_lookup b2 s.team_pr_cache).getD []))
          ++ [Event.team_stats b2 prsB2.length (count_assigned prsB2)
              (count_review_requests prsB2)],
        prsB2) := by
    simp [collect_team_prs, get_team_pull_requests_rest, htoken, hokB2]
  have hA2coll : Event.fetch_error a2 ∈
      (collect_team_prs s.is_token_valid fetch_team a2 asub2
        ((dict_lookup a2 s.team_pr_cache).getD [])).2.1 := by
    simp [collect_team_prs, get_team_pull_requests_rest, htoken, hfailA2]
  refine ⟨?_, ?_, ?_, ?_, ?_, ?_, ?_, ?_, ?_⟩
  · rw [hunfold]
    exact List.mem_append_left _ (List.mem_append_left _
      (hAproc.1 _ hApoll))
  · rw [hunfold]
    refine List.mem_append_left _ (List.mem_append_left _
      (hBproc.1 _ ?_))
    rw [hBpoll]
    simp
  · intro ev hev
    rw [hunfold]
    refine List.mem_append_left _ (List.mem_append_left _
      (hBproc.1 _ ?_))
    rw [hBpoll]
    simp only [List.append_assoc, List.mem_append]
    exact Or.inr (Or.inl hev)
  · rw [hunfold]
    simp only
    rw [hBproc.2, hBpoll]
  · rw [hunfold]
    exact List.mem_append_left _ (List.mem_append_right _
      (hA2proc.1 _ hA2coll))
  · rw [hunfold]
    refine List.mem_append_left _ (List.mem_append_right _
      (hB2proc.1 _ ?_))
    rw [hB2coll]
    simp
  · intro ev hev
    rw [hunfold]
    refine List.mem_append_left _ (List.mem_append_right _
      (hB2proc.1 _ ?_))
    rw [hB2coll]
    simp only [List.append_assoc, List.mem_append]
    exact Or.inr (Or.inl hev)
  · rw [hunfold]
    refine List.mem_append_left _ (List.mem_append_right _
      (hB2proc.1 _ ?_))
    rw [hB2coll]
    simp
  · rw [hunfold]
    simp only
    rw [hB2proc.2, hB2coll]

/-- Witness for `c8_fetch_failure_isolated`: the gadgets repository fetch
and the mobile team fetch raise, the widgets repository fetch and the
platform team fetch return one record each, and both succeeding
subscriptions are still fully processed. -/
theorem c8_fetch_failure_isolated_witness :
    (c8_state.is_token_valid = true ∧
      (c8_state.subscribed_repositories.map Prod.fst).Nodup ∧
      (gadgets_repo, gadgets_subscription) ∈
        c8_state.subscribed_repositories ∧
      c8_fetch gadgets_repo = Except.error () ∧
      (widgets_repo, widgets_subscription) ∈
        c8_state.subscribed_repositories ∧
      c8_fetch widgets_repo = Except.ok [sample_pr] ∧
      (c8_state.subscribed_teams.map Prod.fst).Nodup ∧
      (mobile_team_key, mobile_subscription) ∈
        c8_state.subscribed_teams ∧
      mobile_subscription.enabled = true ∧
      c8_team_fetch mobile_team_key = Except.error () ∧
      (platform_team_key, platform_subscription) ∈
        c8_state.subscribed_teams ∧
      platform_subscription.enabled = true ∧
      c8_team_fetch platform_team_key = Except.ok [sample_pr2]) ∧
    (Event.fetch_error gadgets_repo ∈
      (poll_repositories c8_fetch c8_team_fetch c8_state).2 ∧
    Event.upsert_prs (some widgets_repo) [sample_pr] ∈
      (poll_repositories c8_fetch c8_team_fetch c8_state).2 ∧
    (∀ ev ∈ handle_pr_changes widgets_repo widgets_subscription
        (diff_new [sample_pr]
          ((dict_lookup widgets_repo c8_state.pr_cache).getD []))
        (diff_updated [sample_pr]
          ((dict_lookup widgets_repo c8_state.pr_cache).getD []))
        (diff_closed [sample_pr]
          ((dict_lookup widgets_repo c8_state.pr_cache).getD [])),
      ev ∈ (poll_repositories c8_fetch c8_team_fetch c8_state).2) ∧
    dict_lookup widgets_repo
        (poll_repositories c8_fetch c8_team_fetch c8_state).1.pr_cache =
      some (snapshot_of [sample_pr]) ∧
    Event.fetch_error mobile_team_key ∈
      (poll_repositories c8_fetch c8_team_fetch c8_state).2 ∧
    Event.upsert_prs none [sample_pr2] ∈
      (poll_repositories c8_fetch c8_team_fetch c8_state).2 ∧
    (∀ ev ∈ handle_team_pr_changes platform_team_key
        platform_subscription
        (diff_new [sample_pr2]
          ((dict_lookup platform_team_key
            c8_state.team_pr_cache).getD []))
        (diff_updated [sample_pr2]
          ((dict_lookup platform_team_key
            c8_state.team_pr_cache).getD []))
        (diff_closed [sample_pr2]
          ((dict_lookup platform_team_key
            c8_state.team_pr_cache).getD [])),
      ev ∈ (poll_repositories c8_fetch c8_team_fetch c8_state).2) ∧
    Event.team_stats platform_team_key ([sample_pr2]).length
        (count_assigned [sample_pr2])
        (count_review_requests [sample_pr2]) ∈
      (poll_repositories c8_fetch c8_team_fetch c8_state).2 ∧
    dict_lookup platform_team_key
        (poll_repositories c8_fetch c8_team_fetch
          c8_state).1.team_pr_cache =
      some (snapshot_of [sample_pr2])) :=
  ⟨⟨by decide, by decide, by decide, rfl, by decide, rfl, by decide,
      by decide, by decide, rfl, by decide, by decide, rfl⟩,
    c8_fetch_failure_isolated c8_fetch c8_team_fetch c8_state
      gadgets_repo widgets_repo mobile_team_key platform_team_key
      gadgets_subscription widgets_subscription
      mobile_subscription platform_subscription
      [sample_pr] [sample_pr2] (by decide) (by decide)
      (by decide) rfl (by decide) rfl (by decide) (by decide)
      (by decide) rfl (by decide) (by decide) rfl⟩

/-- When every GraphQL team fetch raises (as it does without a valid
credential: the V2 service raises `ValueError` when no token is set, and
GitHub rejects an invalid one with 401), the team loop of the GraphQL
path only logs per-team errors: the cache is unchanged and every emitted
event is a logged fetch error. -/
theorem graphql_team_phase_all_errors {ts : Bool} {f : Fetcher}
    {l : List (String × TeamSubscription)} {c : List (String × PRDict)}
    (herr : ∀ k, f k = Except.error ()) :
    (graphql_team_phase ts f c l).1 = c ∧
    (∀ ev ∈ (graphql_team_phase ts f c l).2,
      ∃ k, ev = Event.fetch_error k) := by
  induction l generalizing c with
  | nil =>
    refine ⟨rfl, ?_⟩
    intro ev hev
    simp [graphql_team_phase] at hev
  | cons e rest ih =>
    obtain ⟨team_key, tsub⟩ := e
    by_cases hen : tsub.enabled
    · cases hsc : (if ts = false then (Except.error () :
          Except Unit (List PullRequest)) else f team_key) with
      | error err =>
        have hstep1 :
            (graphql_team_phase ts f c ((team_key, tsub) :: rest)).1 =
            (graphql_team_phase ts f c rest).1 := by
          simp [graphql_team_phase, hen, hsc]
        have hstep2 :
            (graphql_team_phase ts f c ((team_key, tsub) :: rest)).2 =
            Event.fetch_error team_key ::
              (graphql_team_phase ts f c rest).2 := by
          simp [graphql_team_phase, hen, hsc]
        refine ⟨?_, ?_⟩
        · rw [hstep1]
          exact (ih (c := c)).1
        · intro ev hev
          rw [hstep2] at hev
          rcases List.mem_cons.1 hev with h2 | h2
          · exact ⟨team_key, h2⟩
          · exact (ih (c := c)).2 ev h2
      | ok prs =>
        exfalso
        cases ts with
        | false => simp at hsc
        | true =>
          have hf : f team_key = Except.ok prs := by
            simpa using hsc
          rw [herr team_key] at hf
          exact Except.noConfusion hf
    · have hen2 : tsub.enabled = false := by
        simpa using hen
      have hstep : graphql_team_phase ts f c ((team_key, tsub) :: rest) =
          graphql_team_phase ts f c rest := by
        simp [graphql_team_phase, hen2]
      rw [hstep]
      exact ih (c := c)

/-- C6: with no valid credential, neither polling entry point fetches a
result, modifies a cache entry, persists or broadcasts anything.  The
REST entry point `poll_repositories` checks the credential and skips the
cycle, returning the state unchanged with no event.  The GraphQL entry
point `poll_repositories_graphql` has no such check, but ends up doing
nothing either: each enabled team's fetch raises inside the per-team
try/except (the V2 service refuses a missing token and GitHub rejects an
invalid one — hypothesis `h401`) and is only logged, and the repository
loop dies on its first iteration reading the nonexistent
`RepositorySubscription.enabled` field, before fetching any repository;
so its state is also unchanged and its only events are error logs and
the escaped `AttributeError`. -/
theorem c6_no_valid_credential_skips_cycle
    (fetch_repo fetch_team fetch_team_graphql : Fetcher)
    (s : SchedulerState) (h : s.is_token_valid = false)
    (h401 : ∀ k, fetch_team_graphql k = Except.error ()) :
    poll_repositories fetch_repo fetch_team s = (s, []) ∧
    (poll_repositories_graphql fetch_team_graphql s).1 = s ∧
    (∀ ev ∈ (poll_repositories_graphql fetch_team_graphql s).2,
      (∃ k, ev = Event.fetch_error k) ∨ ev = Event.attribute_error) := by
  refine ⟨by simp [poll_repositories, h], ?_, ?_⟩
  · by_cases hempty : (s.subscribed_repositories.isEmpty &&
        s.subscribed_teams.isEmpty) = true
    · simp [poll_repositories_graphql, hempty]
    · rw [poll_repositories_graphql]
      simp only [hempty, Bool.false_eq_true, if_false]
      rw [(graphql_team_phase_all_errors h401).1]
  · intro ev hev
    rcases poll_repositories_graphql_events hev with h2 | h2
    · rcases (graphql_team_phase_all_errors h401).2 ev h2 with ⟨k, hk⟩
      exact Or.inl ⟨k, hk⟩
    · exact Or.inr h2

/-- Witness for `c6_no_valid_credential_skips_cycle` at a no-token state
holding one repository subscription with a cached PR and one enabled team
subscription. -/
theorem c6_no_valid_credential_skips_cycle_witness :
    (c6_state.is_token_valid = false ∧
      (∀ k, failing_fetch k = Except.error ())) ∧
    (poll_repositories failing_fetch failing_fetch c6_state =
      (c6_state, []) ∧
    (poll_repositories_graphql failing_fetch c6_state).1 = c6_state ∧
    (∀ ev ∈ (poll_repositories_graphql failing_fetch c6_state).2,
      (∃ k, ev = Event.fetch_error k) ∨ ev = Event.attribute_error)) :=
  ⟨⟨by decide, fun _ => rfl⟩,
    c6_no_valid_credential_skips_cycle failing_fetch failing_fetch
      failing_fetch c6_state (by decide) (fun _ => rfl)⟩

end PRMonitor
